import Mathlib

/-!
# guv 0.2.1 — environment lifecycle manager

A shallow embedding of `src/guv_0.2.1.cpp`.

* The filesystem is a finite table from absolute component paths to nodes
  (regular file or directory); the root directory is the empty path and
  always exists.  Symbolic links and permissions are not modelled.
* `std::string` paths are Lean strings; a path string is split on `/` and
  resolved component by component as the system does it (`.` and empty
  components stay, `..` goes to the parent, every directory passed through
  must exist).  A lookup fails with `ENOENT`, with `ENOTDIR` when it has to
  pass through a regular file, or with `ENAMETOOLONG` when it reaches a name
  of more than `NAME_MAX` bytes or the path string has `PATH_MAX` bytes or
  more (the limits are those of Linux, 255 and 4096).  Only `/` separates
  components, on both platforms, and a relative path string is resolved from
  the root.  The home directory path is taken to be short enough for the
  path of an entry of the environment root to stay below `PATH_MAX`.
* `std::system` is a parameter `sys : String → FS → FS × Int`: the child
  process may change the filesystem and returns an exit status.
* `std::cout`, `std::cerr` and the spawned command lines are recorded in one
  trace, one event per source statement, in program order.  An output event
  says that the statement has written to the stream, not that the text has
  left the stream's buffer: what the buffer of `std::cout` still holds when
  an exception ends the process is not modelled.
* Nothing in the program catches an exception.  An operation ends as
  `Result.ok s` when it returns and as `Result.thrown s` when a call of the
  `std::filesystem` library throws `filesystem_error`; `s` is the state
  reached at that point.
-/

namespace Guv

/-! ## Filesystem model -/

/-- A filesystem node: a regular file with its contents, or a directory. -/
inductive Node where
  | file (content : String)
  | dir
  deriving DecidableEq, Repr

/-- An absolute path as the list of its component names, root first. -/
abbrev Path := List String

/-- The filesystem: every existing non-root path with its node, in the
order a directory enumeration reports them. -/
abbrev FS := List (Path × Node)

/-- First table entry stored under a path. -/
def lookup : FS → Path → Option Node
  | [], _ => none
  | (q, n) :: rest, p => if q = p then some n else lookup rest p

/-- The node at a path; the root is always a directory. -/
def nodeAt (fs : FS) (p : Path) : Option Node :=
  if p = [] then some Node.dir else lookup fs p

/-- Split a character sequence at every `/`. -/
def splitSlash : List Char → List (List Char)
  | [] => [[]]
  | c :: cs =>
    if c = '/' then [] :: splitSlash cs
    else
      match splitSlash cs with
      | [] => [[c]]
      | seg :: segs => (c :: seg) :: segs

/-- The components of a path string. -/
def components (p : String) : List String :=
  (splitSlash p.data).map String.mk

/-- The error numbers a path lookup can end with. -/
inductive Errno where
  | ENOENT
  | ENOTDIR
  | ENAMETOOLONG
  deriving DecidableEq, Repr

/-- The outcome of a path lookup: the node it reaches, or an error number. -/
inductive Lookup where
  | found (t : Path)
  | failed (e : Errno)
  deriving DecidableEq, Repr

/-- The longest file name, in bytes, the filesystem accepts. -/
def NAME_MAX : Nat := 255

/-- The size, in bytes, of the longest path string with its terminator. -/
def PATH_MAX : Nat := 4096

/-- One step of path resolution: from `cur` follow component `c`. -/
def step (fs : FS) (cur : Path) (c : String) : Lookup :=
  match nodeAt fs cur with
  | some Node.dir =>
    if c = "" ∨ c = "." then Lookup.found cur
    else if c = ".." then Lookup.found cur.dropLast
    else if NAME_MAX < c.utf8ByteSize then Lookup.failed Errno.ENAMETOOLONG
    else Lookup.found (cur ++ [c])
  | some (Node.file _) => Lookup.failed Errno.ENOTDIR
  | none => Lookup.failed Errno.ENOENT

/-- Follow a list of components from `cur`. -/
def trav (fs : FS) : List String → Path → Lookup
  | [], cur => Lookup.found cur
  | c :: cs, cur =>
    match step fs cur c with
    | Lookup.found nxt => trav fs cs nxt
    | Lookup.failed e => Lookup.failed e

/-- Resolve a path string to the existing node it names, as `stat` does. -/
def resolve (fs : FS) (p : String) : Lookup :=
  if p = "" then Lookup.failed Errno.ENOENT
  else if PATH_MAX ≤ p.utf8ByteSize then Lookup.failed Errno.ENAMETOOLONG
  else
    match trav fs (components p) [] with
    | Lookup.found t =>
      if (nodeAt fs t).isSome then Lookup.found t else Lookup.failed Errno.ENOENT
    | Lookup.failed e => Lookup.failed e

/-- The `fs::exists(p)` predicate; `none` when it throws, which it does on
every error other than `ENOENT` and `ENOTDIR`. -/
def fsExists (fs : FS) (p : String) : Option Bool :=
  match resolve fs p with
  | Lookup.found _ => some true
  | Lookup.failed Errno.ENOENT => some false
  | Lookup.failed Errno.ENOTDIR => some false
  | Lookup.failed Errno.ENAMETOOLONG => none

/-- The `fs::is_directory(p)` predicate; `none` when it throws. -/
def isDirectory (fs : FS) (p : String) : Option Bool :=
  match resolve fs p with
  | Lookup.found t => some (decide (nodeAt fs t = some Node.dir))
  | Lookup.failed Errno.ENOENT => some false
  | Lookup.failed Errno.ENOTDIR => some false
  | Lookup.failed Errno.ENAMETOOLONG => none

/-- How an operation ends: it returns, or a `filesystem_error` that nothing
catches ends it; either way with the state it has reached. -/
inductive Result (α : Type) where
  | ok (a : α)
  | thrown (a : α)
  deriving DecidableEq, Repr

/-- The state an operation ends in. -/
def Result.state {α : Type} : Result α → α
  | Result.ok a => a
  | Result.thrown a => a

/-- The last non-empty component of a path string is `.` or `..`; `unlink`
and `rmdir` reject such a path. -/
def finalDotted (p : String) : Bool :=
  match ((components p).filter (fun c => c ≠ "")).getLast? with
  | some c => decide (c = "." ∨ c = "..")
  | none => false

/-- Does directory `t` have an entry? -/
def hasChild (fs : FS) (t : Path) : Bool :=
  fs.any (fun e => decide (e.1 ≠ [] ∧ e.1.dropLast = t))

/-- The table without the subtree rooted at `t`. -/
def prune (fs : FS) (t : Path) : FS :=
  fs.filter (fun e => !(t.isPrefixOf e.1))

/-- The table without everything below `t`; `t` itself stays. -/
def eraseBelow (fs : FS) (t : Path) : FS :=
  fs.filter (fun e => !(t.isPrefixOf e.1 && decide (e.1 ≠ t)))

/-- The `fs::remove(p)` operation, as `remove(3)` does it: `unlink`, and
`rmdir` for a directory.  A missing path (`ENOENT`) is no error; every other
failure throws: a lookup error, a path ending in `.` or `..`, the root, a
directory that has entries. -/
def fsRemove (fs : FS) (p : String) : Result FS :=
  match resolve fs p with
  | Lookup.failed Errno.ENOENT => Result.ok fs
  | Lookup.failed _ => Result.thrown fs
  | Lookup.found t =>
    if finalDotted p ∨ t = [] then Result.thrown fs
    else if nodeAt fs t = some Node.dir ∧ hasChild fs t then Result.thrown fs
    else Result.ok (prune fs t)

/-- The `fs::remove_all(p)` operation: it opens `p`, erases everything below
it, and then applies `fs::remove` to the path string `p` once more.  A
missing path is no error; another lookup error throws. -/
def removeAll (fs : FS) (p : String) : Result FS :=
  match resolve fs p with
  | Lookup.failed Errno.ENOENT => Result.ok fs
  | Lookup.failed _ => Result.thrown fs
  | Lookup.found t =>
    if nodeAt fs t = some Node.dir then fsRemove (eraseBelow fs t) p
    else fsRemove fs p

/-- The path is missing, a regular file or an empty directory: what
`fs::remove` accepts at a path whose last name is an ordinary one.  A path
that runs through a regular file, or has too long a name, is not. -/
def removable (fs : FS) (p : String) : Bool :=
  match resolve fs p with
  | Lookup.found t => !(decide (nodeAt fs t = some Node.dir) && hasChild fs t)
  | Lookup.failed Errno.ENOENT => true
  | Lookup.failed _ => false

/-- Create every missing directory along a component list. -/
def createDirs (fs : FS) : List String → Path → Result FS
  | [], _ => Result.ok fs
  | c :: cs, cur =>
    if c = "" ∨ c = "." then createDirs fs cs cur
    else if c = ".." then createDirs fs cs cur.dropLast
    else
      match nodeAt fs (cur ++ [c]) with
      | some Node.dir => createDirs fs cs (cur ++ [c])
      | some (Node.file _) => Result.thrown fs
      | none =>
        if NAME_MAX < c.utf8ByteSize then Result.thrown fs
        else createDirs (fs ++ [(cur ++ [c], Node.dir)]) cs (cur ++ [c])

/-- The `fs::create_directories(p)` operation; throws when a component is a
regular file or too long a name, or the path string too long. -/
def createDirectories (fs : FS) (p : String) : Result FS :=
  if p = "" ∨ PATH_MAX ≤ p.utf8ByteSize then Result.thrown fs
  else createDirs fs (components p) []

/-- Names of the entries of directory `t`, in enumeration order. -/
def children (fs : FS) (t : Path) : List String :=
  (fs.map Prod.fst).filterMap
    (fun q => if q ≠ [] ∧ q.dropLast = t then q.getLast? else none)

/-- The `fs::directory_iterator(p)` range: the paths `p/name` of the entries
of `p`; `none` when the constructor throws, which it does unless `p` is a
directory. -/
def directoryIterator (fs : FS) (p : String) : Option (List String) :=
  match resolve fs p with
  | Lookup.found t =>
    if nodeAt fs t = some Node.dir then
      some ((children fs t).map (fun c => p ++ "/" ++ c))
    else none
  | Lookup.failed _ => none

/-- The `path::filename()` accessor: the text after the last `/`. -/
def filename (p : String) : String :=
  (components p).getLast?.getD ""

/-! ## Program state -/

/-- One observable action of the process. -/
inductive Event where
  | out (text : String)
  | err (text : String)
  | system (cmd : String)
  deriving DecidableEq, Repr

/-- Build-time and start-up parameters: `PLATFORM_WINDOWS` and the value of
the home-directory variable.  The home directory path is taken to leave room,
below `PATH_MAX`, for `/.guv/envs/` and one file name. -/
structure Cfg where
  windows : Bool
  home : String
  room : home.utf8ByteSize + 11 + NAME_MAX < PATH_MAX

/-- The world as the process sees it. -/
structure State where
  fs : FS
  trace : List Event
  deriving DecidableEq

/-- The behaviour of child processes started with `std::system`. -/
abbrev Sys := String → FS → FS × Int

/-- Record one event. -/
def State.emit (s : State) (e : Event) : State :=
  { s with trace := s.trace ++ [e] }

/-- The `std::system(cmd)` call: returns the exit status. -/
def system (sys : Sys) (cmd : String) (s : State) : Int × State :=
  ((sys cmd s.fs).2, { fs := (sys cmd s.fs).1, trace := s.trace ++ [Event.system cmd] })

def GUV_HOME (cfg : Cfg) : String := cfg.home ++ "/.guv"
def ENVS_PATH (cfg : Cfg) : String := GUV_HOME cfg ++ "/envs"

def GREEN : String := "\x1b[1;32m"
def RED : String := "\x1b[1;31m"
def CYAN : String := "\x1b[1;36m"
def RESET : String := "\x1b[0m"

/-! ## Operations -/

/-- The command line of the availability probe. -/
def probeCmd (cfg : Cfg) : String :=
  if cfg.windows then "where uv > nul 2>&1" else "which uv > /dev/null 2>&1"

def uvExists (cfg : Cfg) (sys : Sys) (s : State) : Bool × State :=
  (decide ((system sys (probeCmd cfg) s).1 = 0), (system sys (probeCmd cfg) s).2)

def promptUVInstall (cfg : Cfg) (s : State) : State :=
  (((s.emit (Event.err (RED ++ "'uv' is not installed or not in PATH.\n" ++ RESET))).emit
    (Event.err (CYAN ++ "Install it with:\n"))).emit
    (Event.err (if cfg.windows then "  python -m pip install uv\n"
      else "  curl -Ls https://astral.sh/uv/install.sh | sh\n"))).emit
    (Event.err RESET)

/-- The lines of the usage text, one per output statement. -/
def helpLines : List String :=
  [CYAN ++ "GUV - Global UV Environment Manager\n\n" ++ RESET,
   "Usage:\n",
   "  guv venv <envname>         Create new environment\n",
   "  guv clone <src> <dst>      Clone environment\n",
   "  guv reset <envname>        Delete specific environment\n",
   "  guv reset --all            Delete all environments\n",
   "  guv activate <envname>     Show activation command\n",
   "  guv list                   List all environments\n",
   "  guv config                 Config (not implemented yet)\n",
   "  guv help                   Show this help message\n"]

def printHelp (s : State) : State :=
  { s with trace := s.trace ++ helpLines.map Event.out }

/-- The first line `listEnvs` prints for an environment. -/
def entryLine (envName : String) : String := "  - " ++ envName ++ "\n"

/-- The second line `listEnvs` prints for an environment. -/
def activationLine (cfg : Cfg) (scriptPath : String) : String :=
  if cfg.windows then
    "    PowerShell: Invoke-Expression -Command \"& '" ++ scriptPath ++ "'\"\n"
  else "    Bash: source \"" ++ scriptPath ++ "\"\n"

/-- The loop of `listEnvs` over the directory entries; it carries `found`. -/
def listLoop (cfg : Cfg) : List String → Bool → State → Result (Bool × State)
  | [], found, s => Result.ok (found, s)
  | entry :: rest, found, s =>
    match isDirectory s.fs entry with
    | none => Result.thrown (found, s)
    | some true =>
      listLoop cfg rest true
        ((s.emit (Event.out (entryLine (filename entry)))).emit
          (Event.out (activationLine cfg
            (entry ++ (if cfg.windows then "/Scripts/Activate.ps1" else "/bin/activate")))))
    | some false => listLoop cfg rest found s

def listEnvs (cfg : Cfg) (s : State) : Result State :=
  match fsExists s.fs (ENVS_PATH cfg) with
  | none => Result.thrown s
  | some false =>
    Result.ok (s.emit (Event.out
      (RED ++ "No environments directory at " ++ ENVS_PATH cfg ++ RESET ++ "\n")))
  | some true =>
    match directoryIterator s.fs (ENVS_PATH cfg) with
    | none => Result.thrown s
    | some entries =>
      match listLoop cfg entries false s with
      | Result.thrown r => Result.thrown r.2
      | Result.ok r =>
        if !r.1 then
          Result.ok (r.2.emit (Event.out (RED ++ "No environments found.\n" ++ RESET)))
        else Result.ok r.2

def makeVenv (cfg : Cfg) (sys : Sys) (name : String) (s : State) : Result State :=
  if !(uvExists cfg sys s).1 then Result.ok (promptUVInstall cfg (uvExists cfg sys s).2)
  else
    let s1 := (uvExists cfg sys s).2
    let envPath := ENVS_PATH cfg ++ "/" ++ name
    match fsExists s1.fs envPath with
    | none => Result.thrown s1
    | some true =>
      Result.ok (s1.emit
        (Event.err (RED ++ "Environment already exists: " ++ name ++ RESET ++ "\n")))
    | some false =>
      match createDirectories s1.fs (ENVS_PATH cfg) with
      | Result.thrown fs2 => Result.thrown { fs := fs2, trace := s1.trace }
      | Result.ok fs2 =>
        let cmd := "uv venv \"" ++ envPath ++ "\""
        let s2 : State := { fs := fs2, trace := s1.trace ++
          [Event.out (GREEN ++ "Creating venv at " ++ envPath ++ RESET ++ "\n")] }
        if (system sys cmd s2).1 ≠ 0 then
          Result.ok ((system sys cmd s2).2.emit
            (Event.err (RED ++ "Failed to create virtual environment." ++ RESET ++ "\n")))
        else Result.ok (system sys cmd s2).2

/-- The loop of `resetEnv "--all"` over the directory entries. -/
def resetLoop : List String → State → Result State
  | [], s => Result.ok s
  | entry :: rest, s =>
    match isDirectory s.fs entry with
    | none => Result.thrown s
    | some true =>
      match removeAll s.fs entry with
      | Result.thrown fs1 => Result.thrown { fs := fs1, trace := s.trace }
      | Result.ok fs1 =>
        resetLoop rest { fs := fs1, trace := s.trace ++
          [Event.out (GREEN ++ "Deleted: " ++ filename entry ++ RESET ++ "\n")] }
    | some false => resetLoop rest s

def resetEnv (cfg : Cfg) (arg : String) (s : State) : Result State :=
  if arg = "--all" then
    match fsExists s.fs (ENVS_PATH cfg) with
    | none => Result.thrown s
    | some false =>
      Result.ok (s.emit
        (Event.out (RED ++ "Nothing to reset. No environments found.\n" ++ RESET)))
    | some true =>
      match directoryIterator s.fs (ENVS_PATH cfg) with
      | none => Result.thrown s
      | some entries => resetLoop entries s
  else
    let envPath := ENVS_PATH cfg ++ "/" ++ arg
    match fsExists s.fs envPath with
    | none => Result.thrown s
    | some false =>
      Result.ok (s.emit (Event.err (RED ++ "Environment not found: " ++ arg ++ RESET ++ "\n")))
    | some true =>
      match removeAll s.fs envPath with
      | Result.thrown fs1 => Result.thrown { fs := fs1, trace := s.trace }
      | Result.ok fs1 =>
        Result.ok { fs := fs1, trace := s.trace ++
          [Event.out (GREEN ++ "Deleted environment: " ++ arg ++ RESET ++ "\n")] }

def activateEnv (cfg : Cfg) (name : String) (s : State) : Result State :=
  let script := ENVS_PATH cfg ++ "/" ++ name ++
    (if cfg.windows then "/Scripts/Activate.ps1" else "/bin/activate")
  match fsExists s.fs script with
  | none => Result.thrown s
  | some false =>
    Result.ok (s.emit (Event.err (RED ++ "No activate script found: " ++ script ++ RESET ++ "\n")))
  | some true =>
    Result.ok ((s.emit (Event.out (CYAN ++ "To activate the environment '" ++ name ++
        "' in PowerShell:\n" ++ RESET))).emit
      (Event.out (if cfg.windows then
          "  Invoke-Expression -Command \"& '" ++ script ++ "'\"\n"
        else "  source \"" ++ script ++ "\"\n")))

def tempFile (cfg : Cfg) : String := GUV_HOME cfg ++ "/temp.txt"

def freezeCmd (cfg : Cfg) (src : String) : String :=
  (if cfg.windows then "cmd /c \"" else "bash -c 'source ") ++
    (ENVS_PATH cfg ++ "/" ++ src ++ (if cfg.windows then "/Scripts/activate" else "/bin/activate")) ++
    (if cfg.windows then " && " else " && ") ++ "uv pip freeze > \"" ++ tempFile cfg ++ "\"" ++
    (if cfg.windows then "\"" else "'")

def venvCmd (cfg : Cfg) (dest : String) : String :=
  "uv venv \"" ++ (ENVS_PATH cfg ++ "/" ++ dest) ++ "\""

def installCmd (cfg : Cfg) (dest : String) : String :=
  (if cfg.windows then "cmd /c \"" else "bash -c 'source ") ++
    (ENVS_PATH cfg ++ "/" ++ dest ++ (if cfg.windows then "/Scripts/activate" else "/bin/activate")) ++
    (if cfg.windows then " && " else " && ") ++ "uv pip install -r \"" ++ tempFile cfg ++ "\"" ++
    (if cfg.windows then "\"" else "'")

def cloneEnv (cfg : Cfg) (sys : Sys) (src dest : String) (s : State) : Result State :=
  if !(uvExists cfg sys s).1 then Result.ok (promptUVInstall cfg (uvExists cfg sys s).2)
  else
    let s1 := (uvExists cfg sys s).2
    match fsExists s1.fs (ENVS_PATH cfg ++ "/" ++ src) with
    | none => Result.thrown s1
    | some false =>
      Result.ok (s1.emit (Event.err (RED ++ "Source env doesn't exist: " ++ src ++ RESET ++ "\n")))
    | some true =>
      match fsExists s1.fs (ENVS_PATH cfg ++ "/" ++ dest) with
      | none => Result.thrown s1
      | some true =>
        Result.ok (s1.emit
          (Event.err (RED ++ "Destination already exists: " ++ dest ++ RESET ++ "\n")))
      | some false =>
        let s2 := (system sys (freezeCmd cfg src)
          (s1.emit (Event.out (CYAN ++ "Freezing packages from '" ++ src ++ "'..." ++ RESET ++ "\n")))).2
        let s3 := (system sys (venvCmd cfg dest)
          (s2.emit (Event.out (CYAN ++ "Creating '" ++ dest ++ "'..." ++ RESET ++ "\n")))).2
        let s4 := (system sys (installCmd cfg dest)
          (s3.emit (Event.out (CYAN ++ "Installing into '" ++ dest ++ "'..." ++ RESET ++ "\n")))).2
        match fsRemove s4.fs (tempFile cfg) with
        | Result.thrown fs5 => Result.thrown { fs := fs5, trace := s4.trace }
        | Result.ok fs5 =>
          Result.ok { fs := fs5, trace := s4.trace ++
            [Event.out (GREEN ++ "Successfully cloned " ++ src ++ " â†’ " ++ dest ++ RESET ++ "\n")] }

/-- What the dispatcher does on its last branch. -/
def unknownCommand (s : State) : State :=
  printHelp (s.emit (Event.err (RED ++ "Unknown or invalid command.\n" ++ RESET)))

/-- The dispatcher; `argv` is the whole argument vector, `argv[0]` included. -/
def run (cfg : Cfg) (sys : Sys) (argv : List String) (s : State) : Result State :=
  if argv.length < 2 then Result.ok (printHelp s)
  else
    let cmd := argv.getD 1 ""
    if cmd = "venv" ∧ argv.length ≥ 3 then makeVenv cfg sys (argv.getD 2 "") s
    else if cmd = "clone" ∧ argv.length ≥ 4 then cloneEnv cfg sys (argv.getD 2 "") (argv.getD 3 "") s
    else if cmd = "reset" ∧ argv.length ≥ 3 then resetEnv cfg (argv.getD 2 "") s
    else if cmd = "activate" ∧ argv.length ≥ 3 then activateEnv cfg (argv.getD 2 "") s
    else if cmd = "list" then listEnvs cfg s
    else if cmd = "config" then
      Result.ok (s.emit (Event.out (CYAN ++ "Config system not implemented.\n" ++ RESET)))
    else if cmd = "help" ∨ cmd = "--help" ∨ cmd = "-h" then Result.ok (printHelp s)
    else if cmd = "version" then Result.ok (s.emit (Event.out "guv version 0.2.1\n"))
    else Result.ok (unknownCommand s)

/-! ## Auxiliary definitions for the statements -/

/-- The filesystem `cloneEnv` finds when it reaches `fs::remove(tempFile)`:
the probe, freeze, create and install processes have run in this order. -/
def fsAfterInstall (cfg : Cfg) (sys : Sys) (src dest : String) (fs : FS) : FS :=
  (sys (installCmd cfg dest) (sys (venvCmd cfg dest) (sys (freezeCmd cfg src)
    (sys (probeCmd cfg) fs).1).1).1).1

/-- The events of `cloneEnv` up to and with the install process. -/
def cloneEvents (cfg : Cfg) (src dest : String) : List Event :=
  [Event.system (probeCmd cfg),
   Event.out (CYAN ++ "Freezing packages from '" ++ src ++ "'..." ++ RESET ++ "\n"),
   Event.system (freezeCmd cfg src),
   Event.out (CYAN ++ "Creating '" ++ dest ++ "'..." ++ RESET ++ "\n"),
   Event.system (venvCmd cfg dest),
   Event.out (CYAN ++ "Installing into '" ++ dest ++ "'..." ++ RESET ++ "\n"),
   Event.system (installCmd cfg dest)]

/-- The texts `promptUVInstall` writes to the error stream. -/
def installGuidance (cfg : Cfg) : List String :=
  [RED ++ "'uv' is not installed or not in PATH.\n" ++ RESET,
   CYAN ++ "Install it with:\n",
   if cfg.windows then "  python -m pip install uv\n"
     else "  curl -Ls https://astral.sh/uv/install.sh | sh\n",
   RESET]

/-- The events the loop of `listEnvs` adds for a list of entries. -/
def listedEvents (cfg : Cfg) (fs : FS) : List String → List Event
  | [] => []
  | entry :: rest =>
    if isDirectory fs entry = some true then
      Event.out (entryLine (filename entry)) ::
        Event.out (activationLine cfg
          (entry ++ (if cfg.windows then "/Scripts/Activate.ps1" else "/bin/activate"))) ::
        listedEvents cfg fs rest
    else listedEvents cfg fs rest

/-- Sequencing of lookups. -/
def Lookup.bind (r : Lookup) (f : Path → Lookup) : Lookup :=
  match r with
  | Lookup.found t => f t
  | Lookup.failed e => Lookup.failed e

/-- The filesystem `fs1` is `fs` with some entries deleted. -/
def Sub (fs1 fs : FS) : Prop :=
  (∀ e, e ∈ fs1 → e ∈ fs) ∧ ∀ q n, nodeAt fs1 q = some n → nodeAt fs q = some n

/-- An ordinary file name: one non-empty component other than `.` and `..`. -/
def validName (c : String) : Prop :=
  c ≠ "" ∧ c ≠ "." ∧ c ≠ ".." ∧ '/' ∉ c.data

instance (c : String) : Decidable (validName c) := by
  unfold validName; infer_instance

/-- A table that describes a real directory tree: ordinary names of at most
`NAME_MAX` bytes only, one entry per path, and every entry sits in a
directory. -/
def WF (fs : FS) : Prop :=
  (∀ e ∈ fs, e.1 ≠ [] ∧ ∀ c ∈ e.1, validName c ∧ c.utf8ByteSize ≤ NAME_MAX) ∧
  (fs.map Prod.fst).Nodup ∧
  (∀ e ∈ fs, nodeAt fs e.1.dropLast = some Node.dir)

instance (fs : FS) : Decidable (WF fs) := by
  unfold WF; infer_instance

/-! ## Sample data -/

/-- A POSIX build with home directory `/h`. -/
def demoCfg : Cfg := ⟨false, "/h", by decide⟩

/-- A tree with environment `a` (holding a directory `b`) and a regular
file `f` in the environment root. -/
def demoFs : FS :=
  [(["h"], Node.dir), (["h", ".guv"], Node.dir), (["h", ".guv", "envs"], Node.dir),
   (["h", ".guv", "envs", "a"], Node.dir), (["h", ".guv", "envs", "a", "b"], Node.dir),
   (["h", ".guv", "envs", "f"], Node.file "x")]

def demoState : State := { fs := demoFs, trace := [] }

/-- Every child process exits with status 0 and changes nothing. -/
def sysOk : Sys := fun _ fs => (fs, 0)

/-- The tree `demoFs` with a non-empty directory where the freeze manifest
goes. -/
def demoFsTempDir : FS :=
  demoFs ++ [(["h", ".guv", "temp.txt"], Node.dir),
    (["h", ".guv", "temp.txt", "keep"], Node.file "")]

/-- A tree with an empty environment root. -/
def demoFsEmpty : FS :=
  [(["h"], Node.dir), (["h", ".guv"], Node.dir), (["h", ".guv", "envs"], Node.dir)]

/-- A tool that creates the environment directory, with its parent when the
name is `a/b`, and exits with status 0; every other child process exits
with 0 and changes nothing. -/
def sysVenv : Sys := fun cmd fs =>
  if cmd = venvCmd demoCfg "q" then
    (fs ++ [(["h", ".guv", "envs", "q"], Node.dir)], 0)
  else if cmd = venvCmd demoCfg "a/b" then
    (fs ++ [(["h", ".guv", "envs", "a"], Node.dir),
      (["h", ".guv", "envs", "a", "b"], Node.dir)], 0)
  else (fs, 0)

/-- A tool for cloning `a` to `z`: the freeze process writes the manifest
and exits with 0, the create process makes the directory of `z` and exits
with 0, the install process exits with 1. -/
def sysClone : Sys := fun cmd fs =>
  if cmd = freezeCmd demoCfg "a" then
    (fs ++ [(["h", ".guv", "temp.txt"], Node.file "pkg==1.0\n")], 0)
  else if cmd = venvCmd demoCfg "z" then
    (fs ++ [(["h", ".guv", "envs", "z"], Node.dir)], 0)
  else if cmd = installCmd demoCfg "z" then (fs, 1)
  else (fs, 0)

/-- The probe finds the tool; every other child process exits with status 1;
none changes anything. -/
def sysProbeOnly : Sys := fun cmd fs =>
  (fs, if cmd = probeCmd demoCfg then 0 else 1)

/-- Every child process exits with status 1 and changes nothing: in
particular the probe does not find the tool. -/
def sysFail : Sys := fun _ fs => (fs, 1)

/-! ## Path strings -/

theorem splitSlash_ne_nil (l : List Char) : splitSlash l ≠ [] := by
  cases l with
  | nil => simp [splitSlash]
  | cons c cs =>
    by_cases h : c = '/'
    · simp [splitSlash, h]
    · simp only [splitSlash, h, if_false]
      split <;> simp

theorem splitSlash_append (a b : List Char) :
    splitSlash (a ++ '/' :: b) = splitSlash a ++ splitSlash b := by
  induction a with
  | nil => simp [splitSlash]
  | cons c cs ih =>
    by_cases h : c = '/'
    · simp [splitSlash, h, ih]
    · cases hs : splitSlash cs with
      | nil => exact absurd hs (splitSlash_ne_nil cs)
      | cons seg segs =>
        simp only [List.cons_append, splitSlash, h, if_false, List.append_eq, ih, hs]

theorem splitSlash_of_not_mem (l : List Char) (h : '/' ∉ l) : splitSlash l = [l] := by
  induction l with
  | nil => simp [splitSlash]
  | cons c cs ih =>
    have hc : c ≠ '/' := fun e => h (by simp [e])
    have hcs : '/' ∉ cs := fun e => h (by simp [e])
    simp [splitSlash, hc, ih hcs]

theorem components_ne_nil (p : String) : components p ≠ [] := by
  unfold components
  intro h
  exact splitSlash_ne_nil _ (List.map_eq_nil_iff.mp h)

theorem components_join (a b : String) :
    components (a ++ "/" ++ b) = components a ++ components b := by
  have h : (a ++ "/" ++ b).data = a.data ++ '/' :: b.data := by
    simp [String.data_append]
  simp [components, h, splitSlash_append]

theorem components_of_valid {name : String} (hv : validName name) :
    components name = [name] := by
  unfold components
  rw [splitSlash_of_not_mem _ hv.2.2.2]
  rfl

theorem components_guv (a : String) :
    components (a ++ "/.guv") = components a ++ [".guv"] := by
  have e : a ++ "/.guv" = a ++ "/" ++ ".guv" := by
    rw [String.append_assoc]; rfl
  have hv : validName ".guv" := by decide
  rw [e, components_join, components_of_valid hv]

theorem components_ENVS_PATH (cfg : Cfg) :
    components (ENVS_PATH cfg) = components cfg.home ++ [".guv", "envs"] := by
  have e : GUV_HOME cfg ++ "/envs" = GUV_HOME cfg ++ "/" ++ "envs" := by
    rw [String.append_assoc]; rfl
  have hv : validName "envs" := by decide
  rw [ENVS_PATH, e, components_join, components_of_valid hv, GUV_HOME, components_guv]
  simp

theorem components_tempFile (cfg : Cfg) :
    components (tempFile cfg) = components cfg.home ++ [".guv", "temp.txt"] := by
  have e : GUV_HOME cfg ++ "/temp.txt" = GUV_HOME cfg ++ "/" ++ "temp.txt" := by
    rw [String.append_assoc]; rfl
  have hv : validName "temp.txt" := by decide
  rw [tempFile, e, components_join, components_of_valid hv, GUV_HOME, components_guv]
  simp

theorem ne_empty_of_mem_components {p : String} (c : String) (hc : c ≠ "") (hmem : c ∈ components p) :
    p ≠ "" := by
  intro e
  subst e
  have h : components "" = [""] := by decide
  rw [h, List.mem_singleton] at hmem
  exact hc hmem

theorem guv_mem_components (cfg : Cfg) (name : String) :
    ".guv" ∈ components (ENVS_PATH cfg ++ "/" ++ name) := by
  rw [components_join, components_ENVS_PATH]
  simp

theorem ENVS_PATH_ne_empty (cfg : Cfg) : ENVS_PATH cfg ≠ "" :=
  ne_empty_of_mem_components "envs" (by decide)
    (by rw [components_ENVS_PATH]; simp)

theorem join_ne_empty (a b : String) : a ++ "/" ++ b ≠ "" := by
  intro e
  have h := congrArg String.data e
  have h0 : ("" : String).data = [] := rfl
  simp [String.data_append, h0] at h

theorem tempFile_ne_empty (cfg : Cfg) : tempFile cfg ≠ "" :=
  ne_empty_of_mem_components "temp.txt" (by decide)
    (by rw [components_tempFile]; simp)

theorem finalDotted_of_valid (p : String) {name : String} (hv : validName name) :
    finalDotted (p ++ "/" ++ name) = false := by
  unfold finalDotted
  rw [components_join, components_of_valid hv]
  have h0 : name ≠ "" := hv.1
  simp [List.filter_append, h0, hv.2.1, hv.2.2.1]

theorem finalDotted_tempFile (cfg : Cfg) : finalDotted (tempFile cfg) = false := by
  unfold finalDotted
  rw [components_tempFile]
  have h1 : (".guv" : String) ≠ "" := by decide
  have h2 : ("temp.txt" : String) ≠ "" := by decide
  have h3 : ("temp.txt" : String) ≠ "." := by decide
  have h4 : ("temp.txt" : String) ≠ ".." := by decide
  simp [List.filter_append, List.filter_cons, h1, h2, h3, h4]

theorem filename_child (p : String) {c : String} (hv : validName c) :
    filename (p ++ "/" ++ c) = c := by
  unfold filename
  rw [components_join, components_of_valid hv]
  simp

theorem utf8ByteSize_append (a b : String) :
    (a ++ b).utf8ByteSize = a.utf8ByteSize + b.utf8ByteSize := by
  cases a with
  | mk as =>
    cases b with
    | mk bs =>
      show (String.mk (as ++ bs)).utf8ByteSize = _
      simp only [String.utf8ByteSize_mk, String.utf8Len_append]

theorem utf8ByteSize_ENVS_PATH (cfg : Cfg) :
    (ENVS_PATH cfg).utf8ByteSize = cfg.home.utf8ByteSize + 10 := by
  unfold ENVS_PATH GUV_HOME
  rw [utf8ByteSize_append, utf8ByteSize_append]
  have h1 : ("/.guv" : String).utf8ByteSize = 5 := by decide
  have h2 : ("/envs" : String).utf8ByteSize = 5 := by decide
  omega

/-- The environment root path is shorter than `PATH_MAX`. -/
theorem ENVS_PATH_fits (cfg : Cfg) : (ENVS_PATH cfg).utf8ByteSize < PATH_MAX := by
  have h := cfg.room
  rw [utf8ByteSize_ENVS_PATH]
  omega

/-- The path of an entry of the environment root is shorter than `PATH_MAX`. -/
theorem entry_fits (cfg : Cfg) {c : String} (hfit : c.utf8ByteSize ≤ NAME_MAX) :
    (ENVS_PATH cfg ++ "/" ++ c).utf8ByteSize < PATH_MAX := by
  have h := cfg.room
  rw [utf8ByteSize_append, utf8ByteSize_append, utf8ByteSize_ENVS_PATH]
  have h1 : ("/" : String).utf8ByteSize = 1 := by decide
  omega

theorem left_fits {p n : String} (h : (p ++ "/" ++ n).utf8ByteSize < PATH_MAX) :
    p.utf8ByteSize < PATH_MAX := by
  rw [utf8ByteSize_append, utf8ByteSize_append] at h
  omega

/-! ## Lookups in a smaller filesystem -/

theorem Sub.refl (fs : FS) : Sub fs fs := ⟨fun _ h => h, fun _ _ h => h⟩

theorem Sub.trans {a b c : FS} (h1 : Sub a b) (h2 : Sub b c) : Sub a c :=
  ⟨fun e h => h2.1 e (h1.1 e h), fun q n h => h2.2 q n (h1.2 q n h)⟩

/-- A lookup that does not end with `ENOENT` ends the same way in every
larger filesystem. -/
theorem step_mono {fs1 fs : FS} (h : Sub fs1 fs) (cur : Path) (c : String) (r : Lookup)
    (hr : step fs1 cur c = r) (hne : r ≠ Lookup.failed Errno.ENOENT) :
    step fs cur c = r := by
  unfold step at hr ⊢
  cases hn : nodeAt fs1 cur with
  | none => rw [hn] at hr; exact absurd hr.symm hne
  | some n => rw [hn] at hr; rw [h.2 _ _ hn]; exact hr

theorem trav_mono {fs1 fs : FS} (h : Sub fs1 fs) (cs : List String) (cur : Path) (r : Lookup)
    (hr : trav fs1 cs cur = r) (hne : r ≠ Lookup.failed Errno.ENOENT) :
    trav fs cs cur = r := by
  induction cs generalizing cur with
  | nil => simpa [trav] using hr
  | cons c cs ih =>
    unfold trav at hr ⊢
    cases hs : step fs1 cur c with
    | found nxt =>
      rw [hs] at hr
      rw [step_mono h cur c _ hs (by simp)]
      exact ih nxt hr
    | failed e =>
      rw [hs] at hr
      simp only at hr
      rw [step_mono h cur c _ hs (by rw [hr]; exact hne)]
      exact hr

theorem resolve_eq_found {fs : FS} {p : String} {t : Path} :
    resolve fs p = Lookup.found t ↔
      p ≠ "" ∧ trav fs (components p) [] = Lookup.found t ∧ (nodeAt fs t).isSome = true ∧
        p.utf8ByteSize < PATH_MAX := by
  unfold resolve
  by_cases hp : p = ""
  · simp [hp]
  · by_cases hl : PATH_MAX ≤ p.utf8ByteSize
    · simp only [hp, hl, if_false, if_true]
      constructor
      · intro e; exact absurd e (by simp)
      · intro e; omega
    · simp only [hp, hl, if_false, ne_eq, not_false_eq_true, true_and]
      have hl2 : p.utf8ByteSize < PATH_MAX := by omega
      cases h : trav fs (components p) [] with
      | failed e => simp
      | found u =>
        by_cases hu : (nodeAt fs u).isSome = true
        · simp only [hu, if_true, Lookup.found.injEq]
          constructor
          · intro e; subst e; exact ⟨rfl, hu, hl2⟩
          · intro e; exact e.1
        · simp only [hu, Bool.false_eq_true, if_false]
          constructor
          · intro e; exact absurd e (by simp)
          · intro e
            have hut := Lookup.found.inj e.1
            subst hut
            exact absurd e.2.1 hu

theorem resolve_mono {fs1 fs : FS} (h : Sub fs1 fs) (p : String) (r : Lookup)
    (hr : resolve fs1 p = r) (hne : r ≠ Lookup.failed Errno.ENOENT) :
    resolve fs p = r := by
  unfold resolve at hr ⊢
  by_cases hp : p = ""
  · simp only [hp, if_true] at hr; exact absurd hr.symm hne
  by_cases hl : PATH_MAX ≤ p.utf8ByteSize
  · simp only [hp, hl, if_false, if_true] at hr ⊢; exact hr
  · simp only [hp, hl, if_false] at hr ⊢
    cases ht : trav fs1 (components p) [] with
    | failed e =>
      rw [ht] at hr
      simp only at hr
      rw [trav_mono h _ _ _ ht (by rw [hr]; exact hne)]
      exact hr
    | found t =>
      rw [ht] at hr
      rw [trav_mono h _ _ _ ht (by simp)]
      simp only at hr ⊢
      cases hn : nodeAt fs1 t with
      | none => rw [hn] at hr; exact absurd hr.symm hne
      | some n =>
        rw [hn] at hr
        rw [h.2 _ _ hn]
        exact hr

theorem resolve_found_mono {fs1 fs : FS} (h : Sub fs1 fs) {p : String} {t : Path}
    (hr : resolve fs1 p = Lookup.found t) : resolve fs p = Lookup.found t :=
  resolve_mono h p _ hr (by simp)

theorem fsExists_true_iff {fs : FS} {p : String} :
    fsExists fs p = some true ↔ ∃ t, resolve fs p = Lookup.found t := by
  unfold fsExists
  cases hr : resolve fs p with
  | found t => simp
  | failed e => cases e <;> simp

theorem fsExists_none_iff {fs : FS} {p : String} :
    fsExists fs p = none ↔ resolve fs p = Lookup.failed Errno.ENAMETOOLONG := by
  unfold fsExists
  cases hr : resolve fs p with
  | found t => simp
  | failed e => cases e <;> simp

theorem isDirectory_true_iff {fs : FS} {p : String} :
    isDirectory fs p = some true ↔
      ∃ t, resolve fs p = Lookup.found t ∧ nodeAt fs t = some Node.dir := by
  unfold isDirectory
  cases hr : resolve fs p with
  | found t => simp
  | failed e => cases e <;> simp

theorem fsExists_of_not_true_of_not_none {fs : FS} {p : String}
    (h1 : fsExists fs p ≠ some true) (h2 : fsExists fs p ≠ none) :
    fsExists fs p = some false := by
  cases h : fsExists fs p with
  | none => exact absurd h h2
  | some b =>
    cases b with
    | true => exact absurd h h1
    | false => rfl

theorem isDirectory_exists {fs : FS} {p : String} (h : isDirectory fs p = some true) :
    fsExists fs p = some true := by
  rw [isDirectory_true_iff] at h
  obtain ⟨t, ht, _⟩ := h
  exact fsExists_true_iff.mpr ⟨t, ht⟩

/-! ## Deleting entries -/

theorem lookup_filter (fs : FS) (k : Path → Bool) (q : Path) :
    lookup (fs.filter (fun e => k e.1)) q = if k q = true then lookup fs q else none := by
  induction fs with
  | nil => simp [lookup]
  | cons e rest ih =>
    obtain ⟨p, n⟩ := e
    by_cases hp : k p = true
    · have hf : List.filter (fun e => k e.1) ((p, n) :: rest)
          = (p, n) :: List.filter (fun e => k e.1) rest := by
        simp [List.filter_cons, hp]
      rw [hf]
      by_cases hpq : p = q
      · subst hpq
        simp [lookup, hp]
      · simp only [lookup, hpq, if_false, ih]
    · have hf : List.filter (fun e => k e.1) ((p, n) :: rest)
          = List.filter (fun e => k e.1) rest := by
        simp [List.filter_cons, hp]
      rw [hf, ih]
      by_cases hq : k q = true
      · have hne : p ≠ q := fun e => hp (e ▸ hq)
        simp [hq, lookup, hne]
      · simp [hq]

theorem nodeAt_prune (fs : FS) (t q : Path) (ht : t ≠ []) :
    nodeAt (prune fs t) q = if t.isPrefixOf q = true then none else nodeAt fs q := by
  unfold nodeAt prune
  by_cases hq : q = []
  · subst hq
    cases t with
    | nil => exact absurd rfl ht
    | cons a l => simp [List.isPrefixOf]
  · simp only [hq, if_false]
    rw [lookup_filter fs (fun x => !(t.isPrefixOf x)) q]
    by_cases hp : t.isPrefixOf q = true <;> simp [hp]

theorem nodeAt_eraseBelow (fs : FS) (t q : Path) :
    nodeAt (eraseBelow fs t) q
      = if t.isPrefixOf q = true ∧ q ≠ t then none else nodeAt fs q := by
  unfold nodeAt eraseBelow
  by_cases hq : q = []
  · subst hq
    cases t with
    | nil => simp
    | cons a l => simp [List.isPrefixOf]
  · simp only [hq, if_false]
    rw [lookup_filter fs (fun x => !(t.isPrefixOf x && decide (x ≠ t))) q]
    by_cases hp : t.isPrefixOf q = true
    · by_cases hqt : q = t
      · simp [hp, hqt]
      · simp [hp, hqt]
    · simp [hp]

theorem prune_sub (fs : FS) (t : Path) (ht : t ≠ []) : Sub (prune fs t) fs := by
  refine ⟨fun e he => (List.mem_filter.mp he).1, fun q n hq => ?_⟩
  rw [nodeAt_prune fs t q ht] at hq
  by_cases hp : t.isPrefixOf q = true
  · rw [if_pos hp] at hq; exact absurd hq (by simp)
  · rw [if_neg hp] at hq; exact hq

theorem eraseBelow_sub (fs : FS) (t : Path) : Sub (eraseBelow fs t) fs := by
  refine ⟨fun e he => (List.mem_filter.mp he).1, fun q n hq => ?_⟩
  rw [nodeAt_eraseBelow fs t q] at hq
  by_cases hp : t.isPrefixOf q = true ∧ q ≠ t
  · rw [if_pos hp] at hq; exact absurd hq (by simp)
  · rw [if_neg hp] at hq; exact hq

theorem isPrefixOf_self (t : Path) : t.isPrefixOf t = true := by
  induction t with
  | nil => rfl
  | cons a l ih => simp [List.isPrefixOf, ih]

theorem nodeAt_eraseBelow_self (fs : FS) (t : Path) :
    nodeAt (eraseBelow fs t) t = nodeAt fs t := by
  rw [nodeAt_eraseBelow]
  simp

theorem hasChild_eraseBelow (fs : FS) (t : Path) : hasChild (eraseBelow fs t) t = false := by
  unfold hasChild
  rw [List.any_eq_false]
  intro e he
  obtain ⟨_, hk⟩ := List.mem_filter.mp he
  simp only [decide_eq_true_eq, not_and]
  intro hne hd
  have hpre : t.isPrefixOf e.1 = true := by
    rw [ List.isPrefixOf_iff_prefix, ← hd]
    exact List.dropLast_prefix e.1
  have hnet : e.1 ≠ t := by
    intro heq
    have hl := congrArg List.length hd
    rw [heq, List.length_dropLast] at hl
    have hpos : 0 < t.length := by
      rw [← heq]; exact List.length_pos.mpr hne
    omega
  simp [hpre, hnet] at hk

theorem prune_eraseBelow (fs : FS) (t : Path) : prune (eraseBelow fs t) t = prune fs t := by
  unfold prune eraseBelow
  rw [List.filter_filter]
  congr 1
  funext e
  by_cases hp : t.isPrefixOf e.1 = true <;> simp [hp]

/-! ## Resolution of a joined path -/

theorem trav_append (fs : FS) (xs ys : List String) (cur : Path) :
    trav fs (xs ++ ys) cur = (trav fs xs cur).bind (trav fs ys) := by
  induction xs generalizing cur with
  | nil => simp [trav, Lookup.bind]
  | cons c cs ih =>
    simp only [List.cons_append, trav]
    cases step fs cur c with
    | failed e => simp [Lookup.bind]
    | found nxt => simp [ih]

theorem trav_singleton (fs : FS) (c : String) (cur : Path) :
    trav fs [c] cur = step fs cur c := by
  unfold trav
  cases step fs cur c with
  | failed e => rfl
  | found nxt => simp [trav]

theorem step_found {fs : FS} {cur t : Path} {c : String}
    (h : step fs cur c = Lookup.found t) :
    nodeAt fs cur = some Node.dir ∧
      ((c = "" ∨ c = ".") ∧ t = cur ∨ c = ".." ∧ t = cur.dropLast ∨
        (c ≠ "" ∧ c ≠ "." ∧ c ≠ ".." ∧ c.utf8ByteSize ≤ NAME_MAX ∧ t = cur ++ [c])) := by
  unfold step at h
  cases hn : nodeAt fs cur with
  | none => rw [hn] at h; simp at h
  | some n =>
    cases n with
    | file x => rw [hn] at h; simp at h
    | dir =>
      rw [hn] at h
      simp only at h
      refine ⟨rfl, ?_⟩
      by_cases h1 : c = "" ∨ c = "."
      · rw [if_pos h1] at h
        exact Or.inl ⟨h1, (Lookup.found.inj h).symm⟩
      · rw [if_neg h1] at h
        by_cases h2 : c = ".."
        · rw [if_pos h2] at h
          exact Or.inr (Or.inl ⟨h2, (Lookup.found.inj h).symm⟩)
        · rw [if_neg h2] at h
          by_cases h3 : NAME_MAX < c.utf8ByteSize
          · rw [if_pos h3] at h; simp at h
          · rw [if_neg h3] at h
            have h1' := not_or.mp h1
            exact Or.inr (Or.inr ⟨h1'.1, h1'.2, h2, Nat.le_of_not_lt h3,
              (Lookup.found.inj h).symm⟩)

theorem step_ordinary {fs : FS} {cur : Path} {c : String} (hv : validName c)
    (hfit : c.utf8ByteSize ≤ NAME_MAX) (hd : nodeAt fs cur = some Node.dir) :
    step fs cur c = Lookup.found (cur ++ [c]) := by
  unfold step
  rw [hd]
  simp [hv.1, hv.2.1, hv.2.2.1, Nat.not_lt.mpr hfit]

theorem trav_getLast (fs : FS) (cs : List String) (cur t : Path) (c : String)
    (h : trav fs cs cur = Lookup.found t)
    (hl : (cs.filter (fun c => c ≠ "")).getLast? = some c)
    (h1 : c ≠ ".") (h2 : c ≠ "..") : t.getLast? = some c := by
  induction cs using List.reverseRecOn generalizing t with
  | nil => simp at hl
  | append_singleton xs d ih =>
    rw [trav_append] at h
    cases hx : trav fs xs cur with
    | failed e => rw [hx] at h; simp [Lookup.bind] at h
    | found m =>
      rw [hx] at h
      simp only [Lookup.bind, trav_singleton] at h
      obtain ⟨_, hcase⟩ := step_found h
      by_cases hd : d = ""
      · subst hd
        rcases hcase with ⟨_, ht⟩ | ⟨hdd, _⟩ | ⟨hne, _⟩
        · rw [ht]
          apply ih m hx
          simpa [List.filter_append] using hl
        · exact absurd hdd (by decide)
        · exact absurd rfl hne
      · have hlc : c = d := by
          simp [List.filter_append, hd] at hl
          exact hl.symm
        subst hlc
        rcases hcase with ⟨hc, _⟩ | ⟨hdd, _⟩ | ⟨_, _, _, _, ht⟩
        · rcases hc with hc | hc
          · exact absurd hc hd
          · exact absurd hc h1
        · exact absurd hdd h2
        · rw [ht]; simp

theorem resolve_ne_nil (fs : FS) (p : String) (t : Path) (c : String)
    (h : resolve fs p = Lookup.found t) (hc : c ≠ "") (hmem : c ∈ components p)
    (hd : finalDotted p = false) : t ≠ [] := by
  have hne : (components p).filter (fun c => c ≠ "") ≠ [] := by
    intro e
    have : c ∈ (components p).filter (fun c => c ≠ "") := by
      simp [List.mem_filter, hmem, hc]
    rw [e] at this
    simp at this
  obtain ⟨d, hdl⟩ : ∃ d, ((components p).filter (fun c => c ≠ "")).getLast? = some d := by
    cases hg : ((components p).filter (fun c => c ≠ "")).getLast? with
    | none => exact absurd (List.getLast?_eq_none_iff.mp hg) hne
    | some d => exact ⟨d, rfl⟩
  unfold finalDotted at hd
  rw [hdl] at hd
  simp only [decide_eq_false_iff_not, not_or] at hd
  have := trav_getLast fs _ _ t d (resolve_eq_found.mp h).2.1 hdl hd.1 hd.2
  intro e
  rw [e] at this
  simp at this

/-- The lookup of `p/name` passes through the directory `p` names. -/
theorem resolve_join_left {fs : FS} {p n : String} {t : Path} (hp : p ≠ "")
    (h : resolve fs (p ++ "/" ++ n) = Lookup.found t) :
    ∃ E, resolve fs p = Lookup.found E ∧ nodeAt fs E = some Node.dir := by
  have ht := (resolve_eq_found.mp h).2.1
  rw [components_join, trav_append] at ht
  cases hE : trav fs (components p) [] with
  | failed e => rw [hE] at ht; simp [Lookup.bind] at ht
  | found E =>
    rw [hE] at ht
    simp only [Lookup.bind] at ht
    have hd : nodeAt fs E = some Node.dir := by
      cases hc : components n with
      | nil => exact absurd hc (components_ne_nil n)
      | cons c cs =>
        rw [hc] at ht
        unfold trav at ht
        cases hs : step fs E c with
        | failed e => rw [hs] at ht; simp at ht
        | found nxt => exact (step_found hs).1
    exact ⟨E, resolve_eq_found.mpr
      ⟨hp, hE, by rw [hd]; rfl, left_fits (resolve_eq_found.mp h).2.2.2⟩, hd⟩

/-- The lookup of `p/name` for an ordinary name, where `p` names a
directory. -/
theorem resolve_child_of {fs : FS} {p c : String} {E : Path} (hv : validName c)
    (hfit : c.utf8ByteSize ≤ NAME_MAX) (hlen : (p ++ "/" ++ c).utf8ByteSize < PATH_MAX)
    (hE : resolve fs p = Lookup.found E) (hd : nodeAt fs E = some Node.dir) :
    resolve fs (p ++ "/" ++ c) =
      if (nodeAt fs (E ++ [c])).isSome = true then Lookup.found (E ++ [c])
      else Lookup.failed Errno.ENOENT := by
  have hEt := (resolve_eq_found.mp hE).2.1
  unfold resolve
  rw [if_neg (join_ne_empty p c), if_neg (by omega), components_join, components_of_valid hv,
    trav_append, hEt]
  simp only [Lookup.bind, trav_singleton]
  rw [step_ordinary hv hfit hd]

/-- What a lookup of `p/name` that succeeds, for an ordinary name, tells. -/
theorem resolve_child {fs : FS} {p name : String} {t : Path} (hv : validName name)
    (h : resolve fs (p ++ "/" ++ name) = Lookup.found t) :
    ∃ E, trav fs (components p) [] = Lookup.found E ∧ nodeAt fs E = some Node.dir ∧
      t = E ++ [name] ∧ name.utf8ByteSize ≤ NAME_MAX := by
  have ht := (resolve_eq_found.mp h).2.1
  rw [components_join, components_of_valid hv, trav_append] at ht
  cases hE : trav fs (components p) [] with
  | failed e => rw [hE] at ht; simp [Lookup.bind] at ht
  | found E =>
    rw [hE] at ht
    simp only [Lookup.bind, trav_singleton] at ht
    obtain ⟨hd, hcase⟩ := step_found ht
    rcases hcase with ⟨hc, _⟩ | ⟨hdd, _⟩ | ⟨_, _, _, hfit, hte⟩
    · rcases hc with hc | hc
      · exact absurd hc hv.1
      · exact absurd hc hv.2.1
    · exact absurd hdd hv.2.2.1
    · exact ⟨E, rfl, hd, hte, hfit⟩

theorem nodeAt_snoc (fs : FS) (E : Path) (c : String) :
    nodeAt fs (E ++ [c]) = lookup fs (E ++ [c]) := by
  unfold nodeAt
  simp

theorem isDirectory_child {fs : FS} {p c : String} {E : Path} (hv : validName c)
    (hfit : c.utf8ByteSize ≤ NAME_MAX) (hlen : (p ++ "/" ++ c).utf8ByteSize < PATH_MAX)
    (hE : resolve fs p = Lookup.found E) (hd : nodeAt fs E = some Node.dir) :
    isDirectory fs (p ++ "/" ++ c) = some (decide (nodeAt fs (E ++ [c]) = some Node.dir)) := by
  unfold isDirectory
  rw [resolve_child_of hv hfit hlen hE hd]
  cases hn : nodeAt fs (E ++ [c]) with
  | none => simp
  | some n => simp [hn]

theorem fsExists_child {fs : FS} {p c : String} {E : Path} (hv : validName c)
    (hfit : c.utf8ByteSize ≤ NAME_MAX) (hlen : (p ++ "/" ++ c).utf8ByteSize < PATH_MAX)
    (hE : resolve fs p = Lookup.found E) (hd : nodeAt fs E = some Node.dir) :
    fsExists fs (p ++ "/" ++ c) = some (nodeAt fs (E ++ [c])).isSome := by
  unfold fsExists
  rw [resolve_child_of hv hfit hlen hE hd]
  cases hn : nodeAt fs (E ++ [c]) with
  | none => simp
  | some n => simp

/-! ## `fs::remove` and `fs::remove_all` -/

theorem not_exists_of_removed {fs fs1 : FS} {p : String} {t : Path} (hsub : Sub fs1 fs)
    (hr : resolve fs p = Lookup.found t) (hgone : nodeAt fs1 t = none) :
    fsExists fs1 p = some false := by
  cases hr1 : resolve fs1 p with
  | found u =>
    have hu := resolve_found_mono hsub hr1
    rw [hr] at hu
    have hut := Lookup.found.inj hu
    subst hut
    have hn := (resolve_eq_found.mp hr1).2.2
    rw [hgone] at hn
    simp at hn
  | failed e =>
    cases e with
    | ENOENT => simp [fsExists, hr1]
    | ENOTDIR => simp [fsExists, hr1]
    | ENAMETOOLONG =>
      have := resolve_mono hsub p _ hr1 (by simp)
      rw [hr] at this
      simp at this

theorem fsRemove_cases (fs : FS) (p : String) :
    (resolve fs p = Lookup.failed Errno.ENOENT ∧ fsRemove fs p = Result.ok fs) ∨
    ((∃ e, resolve fs p = Lookup.failed e ∧ e ≠ Errno.ENOENT) ∧
      fsRemove fs p = Result.thrown fs) ∨
    (∃ t, resolve fs p = Lookup.found t ∧
      ((finalDotted p = true ∨ t = [] ∨ (nodeAt fs t = some Node.dir ∧ hasChild fs t = true)) ∧
          fsRemove fs p = Result.thrown fs ∨
        (finalDotted p = false ∧ t ≠ [] ∧
            ¬ (nodeAt fs t = some Node.dir ∧ hasChild fs t = true)) ∧
          fsRemove fs p = Result.ok (prune fs t))) := by
  unfold fsRemove
  cases hr : resolve fs p with
  | failed e =>
    cases e with
    | ENOENT => exact Or.inl ⟨rfl, rfl⟩
    | ENOTDIR => exact Or.inr (Or.inl ⟨⟨_, rfl, by simp⟩, rfl⟩)
    | ENAMETOOLONG => exact Or.inr (Or.inl ⟨⟨_, rfl, by simp⟩, rfl⟩)
  | found t =>
    refine Or.inr (Or.inr ⟨t, rfl, ?_⟩)
    by_cases h1 : finalDotted p = true ∨ t = []
    · left
      refine ⟨?_, by simp only [h1, if_true]⟩
      rcases h1 with h1 | h1
      · exact Or.inl h1
      · exact Or.inr (Or.inl h1)
    · by_cases h2 : nodeAt fs t = some Node.dir ∧ hasChild fs t = true
      · left
        exact ⟨Or.inr (Or.inr h2), by simp only [h1, if_false, h2, and_self, if_true]⟩
      · right
        have h1' := not_or.mp h1
        refine ⟨⟨by simpa using h1'.1, h1'.2, h2⟩, ?_⟩
        simp only [h1, if_false, h2]

theorem fsRemove_sub (fs : FS) (p : String) : Sub (fsRemove fs p).state fs := by
  rcases fsRemove_cases fs p with ⟨_, h⟩ | ⟨_, h⟩ | ⟨t, _, ⟨_, h⟩ | ⟨hc, h⟩⟩
  · rw [h]; exact Sub.refl fs
  · rw [h]; exact Sub.refl fs
  · rw [h]; exact Sub.refl fs
  · rw [h]; exact prune_sub fs t hc.2.1

theorem fsRemove_ok_spec {fs fs1 : FS} {p : String} (h : fsRemove fs p = Result.ok fs1) :
    Sub fs1 fs ∧ fsExists fs1 p = some false := by
  rcases fsRemove_cases fs p with ⟨hr, h1⟩ | ⟨_, h1⟩ | ⟨t, hr, ⟨_, h1⟩ | ⟨hc, h1⟩⟩
  · rw [h1] at h
    have e := Result.ok.inj h
    subst e
    exact ⟨Sub.refl _, by simp [fsExists, hr]⟩
  · rw [h1] at h; simp at h
  · rw [h1] at h; simp at h
  · rw [h1] at h
    have e := Result.ok.inj h
    subst e
    refine ⟨prune_sub fs t hc.2.1, not_exists_of_removed (prune_sub fs t hc.2.1) hr ?_⟩
    rw [nodeAt_prune fs t t hc.2.1, if_pos (isPrefixOf_self t)]

theorem removeAll_sub (fs : FS) (p : String) : Sub (removeAll fs p).state fs := by
  unfold removeAll
  cases hr : resolve fs p with
  | failed e => cases e <;> exact Sub.refl fs
  | found t =>
    by_cases hd : nodeAt fs t = some Node.dir
    · simp only [hd, if_true]
      exact Sub.trans (fsRemove_sub _ p) (eraseBelow_sub fs t)
    · simp only [hd, if_false]
      exact fsRemove_sub fs p

theorem removeAll_ok_spec {fs fs1 : FS} {p : String} (h : removeAll fs p = Result.ok fs1) :
    Sub fs1 fs ∧ fsExists fs1 p = some false := by
  unfold removeAll at h
  cases hr : resolve fs p with
  | failed e =>
    rw [hr] at h
    cases e with
    | ENOENT =>
      have e := Result.ok.inj h
      subst e
      exact ⟨Sub.refl _, by simp [fsExists, hr]⟩
    | ENOTDIR => simp at h
    | ENAMETOOLONG => simp at h
  | found t =>
    rw [hr] at h
    by_cases hd : nodeAt fs t = some Node.dir
    · simp only [hd, if_true] at h
      obtain ⟨h1, h2⟩ := fsRemove_ok_spec h
      exact ⟨Sub.trans h1 (eraseBelow_sub fs t), h2⟩
    · simp only [hd, if_false] at h
      exact fsRemove_ok_spec h

/-- Removal through a path that does not end in `.` or `..` returns, and
deletes the subtree or, when the path string runs through it, its content. -/
theorem removeAll_of_not_dotted {fs : FS} {p : String} {t : Path}
    (hr : resolve fs p = Lookup.found t) (hd : finalDotted p = false) (ht : t ≠ []) :
    removeAll fs p = Result.ok (prune fs t) ∨
      removeAll fs p = Result.ok (eraseBelow fs t) := by
  unfold removeAll
  rw [hr]
  by_cases hdir : nodeAt fs t = some Node.dir
  · simp only [hdir, if_true]
    rcases fsRemove_cases (eraseBelow fs t) p with
      ⟨_, h⟩ | ⟨⟨e, he, hne⟩, _⟩ | ⟨u, hu, ⟨hc, _⟩ | ⟨_, h⟩⟩
    · exact Or.inr h
    · have := resolve_mono (eraseBelow_sub fs t) p _ he (by simpa using hne)
      rw [hr] at this
      simp at this
    · have hut := resolve_found_mono (eraseBelow_sub fs t) hu
      rw [hr] at hut
      have hut := Lookup.found.inj hut
      subst hut
      rcases hc with hc | hc | hc
      · rw [hd] at hc; simp at hc
      · exact absurd hc ht
      · rw [hasChild_eraseBelow] at hc; simp at hc
    · have hut := resolve_found_mono (eraseBelow_sub fs t) hu
      rw [hr] at hut
      have hut := Lookup.found.inj hut
      subst hut
      rw [prune_eraseBelow] at h
      exact Or.inl h
  · simp only [hdir, if_false]
    rcases fsRemove_cases fs p with ⟨he, _⟩ | ⟨⟨e, he, _⟩, _⟩ | ⟨u, hu, ⟨hc, _⟩ | ⟨_, h⟩⟩
    · rw [hr] at he; simp at he
    · rw [hr] at he; simp at he
    · rw [hr] at hu
      have hut := Lookup.found.inj hu
      subst hut
      rcases hc with hc | hc | hc
      · rw [hd] at hc; simp at hc
      · exact absurd hc ht
      · exact absurd hc.1 hdir
    · rw [hr] at hu
      have hut := Lookup.found.inj hu
      subst hut
      exact Or.inl h

theorem removeAll_child {fs : FS} {p name : String} {t : Path} (hv : validName name)
    (hr : resolve fs (p ++ "/" ++ name) = Lookup.found t) :
    removeAll fs (p ++ "/" ++ name) = Result.ok (prune fs t) ∨
      removeAll fs (p ++ "/" ++ name) = Result.ok (eraseBelow fs t) := by
  obtain ⟨E, _, _, hte, _⟩ := resolve_child hv hr
  exact removeAll_of_not_dotted hr (finalDotted_of_valid p hv) (by rw [hte]; simp)

/-! ## Directory entries -/

theorem mem_children {fs : FS} {E : Path} {c : String} :
    c ∈ children fs E ↔ (E ++ [c]) ∈ fs.map Prod.fst := by
  unfold children
  rw [List.mem_filterMap]
  constructor
  · rintro ⟨q, hq, hc⟩
    by_cases hcond : q ≠ [] ∧ q.dropLast = E
    · rw [if_pos hcond] at hc
      have := List.dropLast_append_getLast? c hc
      rw [hcond.2] at this
      rw [this]; exact hq
    · rw [if_neg hcond] at hc; simp at hc
  · intro h
    refine ⟨E ++ [c], h, ?_⟩
    simp

theorem lookup_mem {fs : FS} {q : Path} {n : Node} (h : lookup fs q = some n) :
    (q, n) ∈ fs := by
  induction fs with
  | nil => simp [lookup] at h
  | cons e rest ih =>
    obtain ⟨p, m⟩ := e
    unfold lookup at h
    by_cases hp : p = q
    · rw [if_pos hp] at h
      simp only [Option.some.injEq] at h
      subst hp; subst h
      simp
    · rw [if_neg hp] at h
      simp [ih h]

theorem lookup_isSome_of_mem {fs : FS} {q : Path} (h : q ∈ fs.map Prod.fst) :
    (lookup fs q).isSome = true := by
  induction fs with
  | nil => simp at h
  | cons e rest ih =>
    obtain ⟨p, m⟩ := e
    unfold lookup
    by_cases hp : p = q
    · simp [hp]
    · rw [if_neg hp]
      apply ih
      simp only [List.map_cons, List.mem_cons] at h
      rcases h with h | h
      · exact absurd h.symm hp
      · exact h

theorem mem_children_iff_isSome {fs : FS} {E : Path} {c : String} :
    c ∈ children fs E ↔ (nodeAt fs (E ++ [c])).isSome = true := by
  rw [mem_children, nodeAt_snoc]
  constructor
  · exact lookup_isSome_of_mem
  · intro h
    cases hl : lookup fs (E ++ [c]) with
    | none => rw [hl] at h; simp at h
    | some n => exact List.mem_map.mpr ⟨_, lookup_mem hl, rfl⟩

theorem children_valid {fs : FS} (hwf : WF fs) {E : Path} {c : String}
    (hc : c ∈ children fs E) : validName c ∧ c.utf8ByteSize ≤ NAME_MAX := by
  rw [mem_children, List.mem_map] at hc
  obtain ⟨e, he, hq⟩ := hc
  exact (hwf.1 e he).2 c (by rw [hq]; simp)

theorem children_nodup {fs : FS} (hwf : WF fs) (E : Path) : (children fs E).Nodup := by
  unfold children
  apply List.Nodup.filterMap _ hwf.2.1
  intro q1 q2 c h1 h2
  simp only [Option.mem_def] at h1 h2
  by_cases hc1 : q1 ≠ [] ∧ q1.dropLast = E
  · by_cases hc2 : q2 ≠ [] ∧ q2.dropLast = E
    · rw [if_pos hc1] at h1
      rw [if_pos hc2] at h2
      have e1 := List.dropLast_append_getLast? c h1
      have e2 := List.dropLast_append_getLast? c h2
      rw [hc1.2] at e1
      rw [hc2.2] at e2
      rw [← e1, ← e2]
    · rw [if_neg hc2] at h2; simp at h2
  · rw [if_neg hc1] at h1; simp at h1

theorem directoryIterator_eq_some {fs : FS} {p : String} {entries : List String}
    (h : directoryIterator fs p = some entries) :
    ∃ E, resolve fs p = Lookup.found E ∧ nodeAt fs E = some Node.dir ∧
      entries = (children fs E).map (fun c => p ++ "/" ++ c) := by
  unfold directoryIterator at h
  cases hr : resolve fs p with
  | failed e => rw [hr] at h; simp at h
  | found E =>
    rw [hr] at h
    by_cases hd : nodeAt fs E = some Node.dir
    · simp only [hd, if_true, Option.some.injEq] at h
      exact ⟨E, rfl, hd, h.symm⟩
    · simp [hd] at h

theorem directoryIterator_of_dir {fs : FS} {p : String} {E : Path}
    (hE : resolve fs p = Lookup.found E) (hd : nodeAt fs E = some Node.dir) :
    directoryIterator fs p = some ((children fs E).map (fun c => p ++ "/" ++ c)) := by
  simp [directoryIterator, hE, hd]

/-- In a well-formed tree `fs::is_directory` does not throw on an entry of
the environment root. -/
theorem isDirectory_entry {fs : FS} (hwf : WF fs) (cfg : Cfg) {E : Path}
    (hE : resolve fs (ENVS_PATH cfg) = Lookup.found E) (hd : nodeAt fs E = some Node.dir)
    {c : String} (hc : c ∈ children fs E) :
    isDirectory fs (ENVS_PATH cfg ++ "/" ++ c) =
      some (decide (nodeAt fs (E ++ [c]) = some Node.dir)) :=
  isDirectory_child (children_valid hwf hc).1 (children_valid hwf hc).2
    (entry_fits cfg (children_valid hwf hc).2) hE hd

/-! ## Output lines -/

theorem entryLine_data (a : String) :
    (entryLine a).data = ' ' :: ' ' :: '-' :: ' ' :: (a.data ++ ['\n']) := by
  have h1 : ("  - " : String).data = [' ', ' ', '-', ' '] := rfl
  have h2 : ("\n" : String).data = ['\n'] := rfl
  simp [entryLine, String.data_append, h1, h2]

theorem entryLine_inj {a b : String} (h : entryLine a = entryLine b) : a = b := by
  have hd := congrArg String.data h
  rw [entryLine_data, entryLine_data] at hd
  simp only [List.cons.injEq, true_and] at hd
  exact String.ext (List.append_cancel_right hd)

theorem entryLine_ne_activationLine (cfg : Cfg) (a x : String) :
    entryLine a ≠ activationLine cfg x := by
  intro h
  have hd := congrArg String.data h
  rw [entryLine_data] at hd
  have h1 : ("    PowerShell: Invoke-Expression -Command \"& '" : String).data
      = ' ' :: ' ' :: ' ' :: "  PowerShell: Invoke-Expression -Command \"& '".data.tail := rfl
  have h2 : ("    Bash: source \"" : String).data
      = ' ' :: ' ' :: ' ' :: "  Bash: source \"".data.tail := rfl
  unfold activationLine at hd
  cases hw : cfg.windows with
  | true =>
    simp only [hw, if_true, String.data_append, h1, List.cons_append, List.cons.injEq,
      true_and] at hd
    exact absurd hd.1 (by decide)
  | false =>
    simp only [hw, Bool.false_eq_true, if_false, String.data_append, h2, List.cons_append,
      List.cons.injEq, true_and] at hd
    exact absurd hd.1 (by decide)

theorem entryLine_ne_red (a x : String) : entryLine a ≠ RED ++ x := by
  intro h
  have hd := congrArg String.data h
  have h1 : RED.data = '\x1b' :: RED.data.tail := rfl
  rw [entryLine_data, String.data_append, h1] at hd
  simp only [List.cons_append, List.cons.injEq] at hd
  exact absurd hd.1 (by decide)

theorem no_root_message_red (cfg : Cfg) :
    RED ++ "No environments directory at " ++ ENVS_PATH cfg ++ RESET ++ "\n"
      = RED ++ ("No environments directory at " ++ ENVS_PATH cfg ++ RESET ++ "\n") := by
  simp [String.append_assoc]

theorem none_found_message_red :
    RED ++ "No environments found.\n" ++ RESET = RED ++ ("No environments found.\n" ++ RESET) := by
  simp [String.append_assoc]

/-! ## The loop of `listEnvs` -/

/-- The loop returns when `fs::is_directory` throws on no entry. -/
theorem listLoop_of_total (cfg : Cfg) (entries : List String) (found : Bool) (s : State)
    (htot : ∀ e ∈ entries, isDirectory s.fs e ≠ none) :
    listLoop cfg entries found s = Result.ok
      (found || entries.any (fun e => decide (isDirectory s.fs e = some true)),
        { fs := s.fs, trace := s.trace ++ listedEvents cfg s.fs entries }) := by
  induction entries generalizing found s with
  | nil => simp [listLoop, listedEvents]
  | cons e rest ih =>
    have hrest : ∀ x ∈ rest, isDirectory s.fs x ≠ none := fun x hx => htot x (by simp [hx])
    unfold listLoop listedEvents
    cases hd : isDirectory s.fs e with
    | none => exact absurd hd (htot e (by simp))
    | some b =>
      cases b with
      | true =>
        simp only [if_true]
        rw [ih true _ (by simpa [State.emit] using hrest)]
        simp [State.emit, hd]
      | false =>
        simp only [Bool.false_eq_true, if_false, reduceCtorEq]
        rw [ih found s hrest]
        simp [hd]

/-- The loop returns only when `fs::is_directory` throws on no entry. -/
theorem listLoop_ok_total (cfg : Cfg) (entries : List String) (found : Bool) (s : State)
    (r : Bool × State) (h : listLoop cfg entries found s = Result.ok r) :
    ∀ e ∈ entries, isDirectory s.fs e ≠ none := by
  induction entries generalizing found s with
  | nil => simp
  | cons e rest ih =>
    unfold listLoop at h
    cases hd : isDirectory s.fs e with
    | none => rw [hd] at h; simp at h
    | some b =>
      rw [hd] at h
      intro x hx
      rcases List.mem_cons.mp hx with hx | hx
      · subst hx; rw [hd]; simp
      · cases b with
        | true => exact ih _ _ h x hx
        | false => exact ih _ _ h x hx

theorem mem_listedEvents {cfg : Cfg} {fs : FS} {entries : List String} {ev : Event}
    (h : ev ∈ listedEvents cfg fs entries) :
    ∃ entry ∈ entries, isDirectory fs entry = some true ∧
      (ev = Event.out (entryLine (filename entry)) ∨
        ev = Event.out (activationLine cfg
          (entry ++ (if cfg.windows then "/Scripts/Activate.ps1" else "/bin/activate")))) := by
  induction entries with
  | nil => simp [listedEvents] at h
  | cons e rest ih =>
    unfold listedEvents at h
    by_cases hd : isDirectory fs e = some true
    · rw [if_pos hd] at h
      simp only [List.mem_cons] at h
      rcases h with h | h | h
      · exact ⟨e, by simp, hd, Or.inl h⟩
      · exact ⟨e, by simp, hd, Or.inr h⟩
      · obtain ⟨x, hx, hxd, hxe⟩ := ih h
        exact ⟨x, by simp [hx], hxd, hxe⟩
    · rw [if_neg hd] at h
      obtain ⟨x, hx, hxd, hxe⟩ := ih h
      exact ⟨x, by simp [hx], hxd, hxe⟩

theorem listedEvents_mem (cfg : Cfg) {fs : FS} {entries : List String} {entry : String}
    (hm : entry ∈ entries) (hd : isDirectory fs entry = some true) :
    Event.out (entryLine (filename entry)) ∈ listedEvents cfg fs entries := by
  induction entries with
  | nil => simp at hm
  | cons e rest ih =>
    unfold listedEvents
    rcases List.mem_cons.mp hm with h | h
    · subst h
      simp [hd]
    · by_cases hde : isDirectory fs e = some true
      · simp [hde, ih h]
      · simp [hde, ih h]

/-- What `listEnvs` does once the environment root is a directory and
`fs::is_directory` throws on none of its entries. -/
theorem listEnvs_of_entries (cfg : Cfg) (s : State) (entries : List String)
    (hex : fsExists s.fs (ENVS_PATH cfg) = some true)
    (hit : directoryIterator s.fs (ENVS_PATH cfg) = some entries)
    (htot : ∀ e ∈ entries, isDirectory s.fs e ≠ none) :
    listEnvs cfg s = Result.ok
      { fs := s.fs,
        trace := s.trace ++ listedEvents cfg s.fs entries ++
          (if entries.any (fun e => decide (isDirectory s.fs e = some true)) = true then []
            else [Event.out (RED ++ "No environments found.\n" ++ RESET)]) } := by
  unfold listEnvs
  simp only [hex, hit, listLoop_of_total cfg entries false s htot, Bool.false_or]
  by_cases ha : entries.any (fun e => decide (isDirectory s.fs e = some true)) = true
  · simp [ha]
  · simp [ha, State.emit]

/-! ## Removal through a path that ends in `..` -/

theorem last_dotdot_split (cs : List String)
    (h : (cs.filter (fun c => c ≠ "")).getLast? = some "..") :
    ∃ pre tail, cs = pre ++ ".." :: tail ∧ ∀ x ∈ tail, x = "" := by
  induction cs using List.reverseRecOn with
  | nil => simp at h
  | append_singleton xs d ih =>
    by_cases hd : d = ""
    · subst hd
      have h1 : (xs.filter (fun c => c ≠ "")).getLast? = some ".." := by
        simpa [List.filter_append] using h
      obtain ⟨pre, tail, hx, ht⟩ := ih h1
      refine ⟨pre, tail ++ [""], by rw [hx]; simp, ?_⟩
      intro x hx1
      rcases List.mem_append.mp hx1 with hx1 | hx1
      · exact ht x hx1
      · simpa using hx1
    · have hlc : d = ".." := by
        simp [List.filter_append, hd] at h
        exact h
      subst hlc
      exact ⟨xs, [], rfl, by simp⟩

theorem trav_empties (fs : FS) (tail : List String) (cur t : Path)
    (htail : ∀ x ∈ tail, x = "") (h : trav fs tail cur = Lookup.found t) : t = cur := by
  induction tail generalizing cur with
  | nil => simpa [trav] using h.symm
  | cons d rest ih =>
    have hd : d = "" := htail d (by simp)
    subst hd
    unfold trav at h
    cases hs : step fs cur "" with
    | failed e => rw [hs] at h; simp at h
    | found nxt =>
      rw [hs] at h
      obtain ⟨_, hcase⟩ := step_found hs
      rcases hcase with ⟨_, hn⟩ | ⟨hdd, _⟩ | ⟨hne, _⟩
      · rw [hn] at h
        exact ih cur (fun x hx => htail x (by simp [hx])) h
      · exact absurd hdd (by decide)
      · exact absurd rfl hne

/-- A lookup that ends with `..`: the directory it leaves and the one it
reaches. -/
theorem trav_dotdot {fs : FS} {pre tail : List String} {t : Path}
    (htail : ∀ x ∈ tail, x = "")
    (h : trav fs (pre ++ ".." :: tail) [] = Lookup.found t) :
    ∃ m, trav fs pre [] = Lookup.found m ∧ nodeAt fs m = some Node.dir ∧ t = m.dropLast := by
  rw [trav_append] at h
  cases hm : trav fs pre [] with
  | failed e => rw [hm] at h; simp [Lookup.bind] at h
  | found m =>
    rw [hm] at h
    simp only [Lookup.bind] at h
    unfold trav at h
    cases hs : step fs m ".." with
    | failed e => rw [hs] at h; simp at h
    | found nxt =>
      rw [hs] at h
      obtain ⟨hd, hcase⟩ := step_found hs
      have ht := trav_empties fs tail nxt t htail h
      rcases hcase with ⟨hc, _⟩ | ⟨_, hn⟩ | ⟨_, _, hne, _⟩
      · rcases hc with hc | hc
        · exact absurd hc (by decide)
        · exact absurd hc (by decide)
      · exact ⟨m, rfl, hd, by rw [ht, hn]⟩
      · exact absurd rfl hne

theorem nodeAt_eraseBelow_root (fs : FS) (q : Path) (hq : q ≠ []) :
    nodeAt (eraseBelow fs []) q = none := by
  rw [nodeAt_eraseBelow]
  simp [hq]

/-- With everything below the root erased, no lookup gets past `.guv`. -/
theorem trav_erased_root (fs : FS) (cs : List String) (hmem : ".guv" ∈ cs) :
    trav (eraseBelow fs []) cs [] ≠ Lookup.found [] := by
  intro h
  obtain ⟨A, B, hcs⟩ := List.append_of_mem hmem
  rw [hcs, trav_append] at h
  cases ha : trav (eraseBelow fs []) A [] with
  | failed e => rw [ha] at h; simp [Lookup.bind] at h
  | found a =>
    rw [ha] at h
    simp only [Lookup.bind] at h
    unfold trav at h
    cases hs : step (eraseBelow fs []) a ".guv" with
    | failed e => rw [hs] at h; simp at h
    | found nxt =>
      rw [hs] at h
      obtain ⟨_, hcase⟩ := step_found hs
      rcases hcase with ⟨hc, _⟩ | ⟨hdd, _⟩ | ⟨_, _, _, _, hn⟩
      · rcases hc with hc | hc
        · exact absurd hc (by decide)
        · exact absurd hc (by decide)
      · exact absurd hdd (by decide)
      · subst hn
        cases B with
        | nil =>
          simp only [trav, Lookup.found.injEq] at h
          simp at h
        | cons b B1 =>
          unfold trav at h
          cases hs2 : step (eraseBelow fs []) (a ++ [".guv"]) b with
          | failed e => rw [hs2] at h; simp at h
          | found n2 =>
            have := (step_found hs2).1
            rw [nodeAt_eraseBelow_root fs _ (by simp)] at this
            simp at this

/-- The path ends in `..`: once the directory it names is emptied, the path
string names nothing any more. -/
theorem resolve_dotdot_erased {fs : FS} {p : String} {t : Path}
    (hr : resolve fs p = Lookup.found t)
    (hl : ((components p).filter (fun c => c ≠ "")).getLast? = some "..")
    (hmem : ".guv" ∈ components p) :
    resolve (eraseBelow fs t) p = Lookup.failed Errno.ENOENT := by
  obtain ⟨pre, tail, hcs, htail⟩ := last_dotdot_split _ hl
  have hpre : ".guv" ∈ pre := by
    rw [hcs] at hmem
    rcases List.mem_append.mp hmem with h | h
    · exact h
    · rcases List.mem_cons.mp h with h | h
      · exact absurd h (by decide)
      · exact absurd (htail _ h) (by decide)
  cases hr1 : resolve (eraseBelow fs t) p with
  | failed e =>
    cases e with
    | ENOENT => rfl
    | ENOTDIR =>
      have := resolve_mono (eraseBelow_sub fs t) p _ hr1 (by simp)
      rw [hr] at this; simp at this
    | ENAMETOOLONG =>
      have := resolve_mono (eraseBelow_sub fs t) p _ hr1 (by simp)
      rw [hr] at this; simp at this
  | found u =>
    exfalso
    have hu := resolve_found_mono (eraseBelow_sub fs t) hr1
    rw [hr] at hu
    have hut := Lookup.found.inj hu
    subst hut
    have ht := (resolve_eq_found.mp hr1).2.1
    rw [hcs] at ht
    obtain ⟨m, hm, hmd, htm⟩ := trav_dotdot htail ht
    rw [nodeAt_eraseBelow] at hmd
    have hpre_m : t.isPrefixOf m = true := by
      rw [ List.isPrefixOf_iff_prefix, htm]
      exact List.dropLast_prefix m
    by_cases hmt : m = t
    · have hm0 : m = [] := by
        have hl1 := congrArg List.length htm
        rw [← hmt, List.length_dropLast] at hl1
        exact List.length_eq_zero.mp (by omega)
      rw [hm0] at hmt hm
      rw [← hmt] at hm
      exact trav_erased_root fs pre hpre hm
    · rw [if_pos ⟨hpre_m, hmt⟩] at hmd
      simp at hmd

/-- The directory a lookup ending in `..` reaches is a directory, in a
well-formed tree. -/
theorem resolve_dotdot_dir {fs : FS} (hwf : WF fs) {p : String} {t : Path}
    (hr : resolve fs p = Lookup.found t)
    (hl : ((components p).filter (fun c => c ≠ "")).getLast? = some "..") :
    nodeAt fs t = some Node.dir := by
  obtain ⟨pre, tail, hcs, htail⟩ := last_dotdot_split _ hl
  have ht := (resolve_eq_found.mp hr).2.1
  rw [hcs] at ht
  obtain ⟨m, _, hmd, htm⟩ := trav_dotdot htail ht
  by_cases hm0 : m = []
  · rw [htm, hm0]; rfl
  · have hlk : lookup fs m = some Node.dir := by
      unfold nodeAt at hmd
      rw [if_neg hm0] at hmd
      exact hmd
    have := hwf.2.2 _ (lookup_mem hlk)
    rw [htm]
    exact this

theorem removeAll_of_dotdot {fs : FS} (hwf : WF fs) {p : String} {t : Path}
    (hr : resolve fs p = Lookup.found t)
    (hl : ((components p).filter (fun c => c ≠ "")).getLast? = some "..")
    (hmem : ".guv" ∈ components p) :
    removeAll fs p = Result.ok (eraseBelow fs t) := by
  unfold removeAll
  rw [hr]
  simp only [resolve_dotdot_dir hwf hr hl, if_true]
  unfold fsRemove
  rw [resolve_dotdot_erased hr hl hmem]

/-! ## Claims -/

/-! ### `resetEnv` on one name -/

/-- The three ways `resetEnv` goes on an argument other than `--all`. -/
theorem resetEnv_name_cases (cfg : Cfg) (name : String) (s : State) (hname : name ≠ "--all") :
    (fsExists s.fs (ENVS_PATH cfg ++ "/" ++ name) = none ∧
      resetEnv cfg name s = Result.thrown s) ∨
    (fsExists s.fs (ENVS_PATH cfg ++ "/" ++ name) = some false ∧
      resetEnv cfg name s = Result.ok (s.emit
        (Event.err (RED ++ "Environment not found: " ++ name ++ RESET ++ "\n")))) ∨
    (fsExists s.fs (ENVS_PATH cfg ++ "/" ++ name) = some true ∧
      ((∃ fs1, removeAll s.fs (ENVS_PATH cfg ++ "/" ++ name) = Result.thrown fs1 ∧
          resetEnv cfg name s = Result.thrown { fs := fs1, trace := s.trace }) ∨
        (∃ fs1, removeAll s.fs (ENVS_PATH cfg ++ "/" ++ name) = Result.ok fs1 ∧
          resetEnv cfg name s = Result.ok { fs := fs1, trace := s.trace ++
            [Event.out (GREEN ++ "Deleted environment: " ++ name ++ RESET ++ "\n")] }))) := by
  unfold resetEnv
  rw [if_neg hname]
  dsimp only
  cases he : fsExists s.fs (ENVS_PATH cfg ++ "/" ++ name) with
  | none => exact Or.inl ⟨rfl, rfl⟩
  | some b =>
    cases b with
    | false => exact Or.inr (Or.inl ⟨rfl, rfl⟩)
    | true =>
      refine Or.inr (Or.inr ⟨rfl, ?_⟩)
      cases hr : removeAll s.fs (ENVS_PATH cfg ++ "/" ++ name) with
      | thrown fs1 => exact Or.inl ⟨fs1, rfl, rfl⟩
      | ok fs1 => exact Or.inr ⟨fs1, rfl, rfl⟩

theorem resetEnv_name_postcondition (cfg : Cfg) (name : String) (s s1 : State)
    (hname : name ≠ "--all") (h : resetEnv cfg name s = Result.ok s1) :
    fsExists s1.fs (ENVS_PATH cfg ++ "/" ++ name) = some false := by
  rcases resetEnv_name_cases cfg name s hname with
    ⟨_, h1⟩ | ⟨he, h1⟩ | ⟨_, ⟨fs1, _, h1⟩ | ⟨fs1, hr, h1⟩⟩
  · rw [h1] at h; simp at h
  · rw [h1] at h
    have e := Result.ok.inj h
    subst e
    exact he
  · rw [h1] at h; simp at h
  · rw [h1] at h
    have e := Result.ok.inj h
    subst e
    exact (removeAll_ok_spec hr).2

theorem resetEnv_name_returns (cfg : Cfg) (name : String) (s : State)
    (hname : name ≠ "--all")
    (hex : fsExists s.fs (ENVS_PATH cfg ++ "/" ++ name) ≠ none)
    (hrm : ∀ t, resolve s.fs (ENVS_PATH cfg ++ "/" ++ name) = Lookup.found t →
      ∃ fs1, removeAll s.fs (ENVS_PATH cfg ++ "/" ++ name) = Result.ok fs1) :
    ∃ s1, resetEnv cfg name s = Result.ok s1 := by
  rcases resetEnv_name_cases cfg name s hname with
    ⟨he, _⟩ | ⟨_, h1⟩ | ⟨he, ⟨fs1, hr, _⟩ | ⟨fs1, _, h1⟩⟩
  · exact absurd he hex
  · exact ⟨_, h1⟩
  · obtain ⟨t, ht⟩ := fsExists_true_iff.mp he
    obtain ⟨fs2, h2⟩ := hrm t ht
    rw [h2] at hr
    simp at hr
  · exact ⟨_, h1⟩

/-- The lookup of `p/name` for a name of more than `NAME_MAX` bytes, where
`p` names a directory: `fs::exists` throws. -/
theorem fsExists_too_long {fs : FS} {p c : String} {E : Path} (hv : validName c)
    (hlong : NAME_MAX < c.utf8ByteSize) (hE : resolve fs p = Lookup.found E)
    (hd : nodeAt fs E = some Node.dir) : fsExists fs (p ++ "/" ++ c) = none := by
  have hEt := (resolve_eq_found.mp hE).2.1
  rw [fsExists_none_iff]
  unfold resolve
  rw [if_neg (join_ne_empty p c), components_join, components_of_valid hv, trav_append, hEt]
  simp only [Lookup.bind, trav_singleton]
  unfold step
  rw [hd]
  simp [hv.1, hv.2.1, hv.2.2.1, hlong]

/-- On a path string of `PATH_MAX` bytes or more `fs::exists` throws, whatever
the tree holds. -/
theorem fsExists_path_too_long (fs : FS) {p : String} (hp : p ≠ "")
    (hlong : PATH_MAX ≤ p.utf8ByteSize) : fsExists fs p = none := by
  rw [fsExists_none_iff]
  unfold resolve
  rw [if_neg hp, if_pos hlong]

/-- On a name that makes the path string `PATH_MAX` bytes or more `resetEnv`
ends in the exception of its existence check, having done nothing. -/
theorem resetEnv_path_too_long (cfg : Cfg) (name : String) (s : State)
    (hname : name ≠ "--all")
    (hlong : PATH_MAX ≤ (ENVS_PATH cfg ++ "/" ++ name).utf8ByteSize) :
    resetEnv cfg name s = Result.thrown s := by
  rcases resetEnv_name_cases cfg name s hname with ⟨_, h⟩ | ⟨he, _⟩ | ⟨he, _⟩
  · exact h
  · rw [fsExists_path_too_long s.fs (join_ne_empty _ _) hlong] at he; simp at he
  · rw [fsExists_path_too_long s.fs (join_ne_empty _ _) hlong] at he; simp at he

/-- On a name of more than `NAME_MAX` bytes `resetEnv` ends in the exception
of its existence check, having done nothing. -/
theorem resetEnv_name_too_long (cfg : Cfg) (name : String) (s : State) (E : Path)
    (hv : validName name) (hlong : NAME_MAX < name.utf8ByteSize)
    (hE : resolve s.fs (ENVS_PATH cfg) = Lookup.found E)
    (hd : nodeAt s.fs E = some Node.dir) :
    resetEnv cfg name s = Result.thrown s := by
  have hname : name ≠ "--all" := by
    intro e
    rw [e] at hlong
    exact absurd hlong (by decide)
  rcases resetEnv_name_cases cfg name s hname with ⟨_, h⟩ | ⟨he, _⟩ | ⟨he, _⟩
  · exact h
  · rw [fsExists_too_long hv hlong hE hd] at he; simp at he
  · rw [fsExists_too_long hv hlong hE hd] at he; simp at he

/-- C2: for a name other than `--all`, whenever `resetEnv name` returns, the
existence check for `environment_root/name` is false afterwards.  It
returns, in a well-formed tree, unless `fs::exists` throws on the path or
the last non-empty component of the name is `.`; without the tree being
well-formed, unless `fs::exists` throws or the path ends in `.` or `..`. -/
theorem resetEnv_name_then_absent (cfg : Cfg) (name : String) (s : State)
    (hname : name ≠ "--all") :
    (∀ s1, resetEnv cfg name s = Result.ok s1 →
      fsExists s1.fs (ENVS_PATH cfg ++ "/" ++ name) = some false) ∧
    (fsExists s.fs (ENVS_PATH cfg ++ "/" ++ name) ≠ none →
      finalDotted (ENVS_PATH cfg ++ "/" ++ name) = false →
      ∃ s1, resetEnv cfg name s = Result.ok s1) ∧
    (WF s.fs → fsExists s.fs (ENVS_PATH cfg ++ "/" ++ name) ≠ none →
      ((components (ENVS_PATH cfg ++ "/" ++ name)).filter (fun c => c ≠ "")).getLast?
        ≠ some "." →
      ∃ s1, resetEnv cfg name s = Result.ok s1) := by
  have hnd : ∀ t, finalDotted (ENVS_PATH cfg ++ "/" ++ name) = false →
      resolve s.fs (ENVS_PATH cfg ++ "/" ++ name) = Lookup.found t →
      ∃ fs1, removeAll s.fs (ENVS_PATH cfg ++ "/" ++ name) = Result.ok fs1 := by
    intro t hd ht
    have htn : t ≠ [] :=
      resolve_ne_nil s.fs _ t ".guv" ht (by decide) (guv_mem_components cfg name) hd
    rcases removeAll_of_not_dotted ht hd htn with h | h
    · exact ⟨_, h⟩
    · exact ⟨_, h⟩
  refine ⟨fun s1 h => resetEnv_name_postcondition cfg name s s1 hname h, ?_, ?_⟩
  · intro hex hd
    exact resetEnv_name_returns cfg name s hname hex (fun t ht => hnd t hd ht)
  · intro hwf hex hl
    apply resetEnv_name_returns cfg name s hname hex
    intro t ht
    cases hfd : finalDotted (ENVS_PATH cfg ++ "/" ++ name) with
    | false => exact hnd t hfd ht
    | true =>
      have hdd : ((components (ENVS_PATH cfg ++ "/" ++ name)).filter
          (fun c => c ≠ "")).getLast? = some ".." := by
        unfold finalDotted at hfd
        cases hg : ((components (ENVS_PATH cfg ++ "/" ++ name)).filter
            (fun c => c ≠ "")).getLast? with
        | none => rw [hg] at hfd; simp at hfd
        | some c =>
          rw [hg] at hfd hl
          simp only [decide_eq_true_eq] at hfd
          rcases hfd with hc | hc
          · rw [hc] at hl; exact absurd rfl hl
          · rw [hc]
      exact ⟨_, removeAll_of_dotdot hwf ht hdd (guv_mem_components cfg name)⟩

theorem resetEnv_name_then_absent_witness :
    "a" ≠ "--all" ∧ ".." ≠ "--all" ∧ WF demoState.fs ∧
      fsExists demoState.fs (ENVS_PATH demoCfg ++ "/" ++ "a") = some true ∧
      fsExists demoState.fs (ENVS_PATH demoCfg ++ "/" ++ "..") = some true ∧
      (∃ s1, resetEnv demoCfg "a" demoState = Result.ok s1 ∧
        fsExists s1.fs (ENVS_PATH demoCfg ++ "/" ++ "a") = some false) ∧
      (∃ s1, resetEnv demoCfg ".." demoState = Result.ok s1 ∧
        fsExists s1.fs (ENVS_PATH demoCfg ++ "/" ++ "..") = some false) := by
  have h := resetEnv_name_then_absent demoCfg "a" demoState (by decide)
  have k := resetEnv_name_then_absent demoCfg ".." demoState (by decide)
  obtain ⟨s1, hs1⟩ := h.2.1 (by decide) (by decide)
  obtain ⟨s2, hs2⟩ := k.2.2 (by decide) (by decide) (by decide)
  exact ⟨by decide, by decide, by decide, by decide, by decide,
    ⟨s1, hs1, h.1 s1 hs1⟩, ⟨s2, hs2, k.1 s2 hs2⟩⟩

theorem isPrefixOf_sibling {E : Path} {name c : String} {rest : List String}
    (h : (E ++ [name]).isPrefixOf (E ++ c :: rest) = true) : name = c := by
  rw [ List.isPrefixOf_iff_prefix, List.prefix_append_right_inj] at h
  obtain ⟨r, hr⟩ := h
  simp at hr
  exact hr.1

theorem isPrefixOf_parent {E : Path} {name : String} :
    (E ++ [name]).isPrefixOf E = false := by
  cases h : (E ++ [name]).isPrefixOf E with
  | false => rfl
  | true =>
    rw [ List.isPrefixOf_iff_prefix] at h
    have := h.length_le
    simp at this

/-- Nothing outside the subtree at `E/name` changes when the subtree or what
is below it goes. -/
theorem frame_of_removed (fs fs1 : FS) (E : Path) (name : String)
    (h : fs1 = fs ∨ fs1 = prune fs (E ++ [name]) ∨ fs1 = eraseBelow fs (E ++ [name])) :
    nodeAt fs1 E = nodeAt fs E ∧
      ∀ c rest, c ≠ name → nodeAt fs1 (E ++ c :: rest) = nodeAt fs (E ++ c :: rest) := by
  rcases h with h | h | h
  · rw [h]; exact ⟨rfl, fun _ _ _ => rfl⟩
  · rw [h]
    constructor
    · rw [nodeAt_prune _ _ _ (by simp), isPrefixOf_parent]; simp
    · intro c rest hc
      rw [nodeAt_prune _ _ _ (by simp)]
      cases hp : (E ++ [name]).isPrefixOf (E ++ c :: rest) with
      | false => simp
      | true => exact absurd (isPrefixOf_sibling hp).symm hc
  · rw [h]
    constructor
    · rw [nodeAt_eraseBelow, isPrefixOf_parent]; simp
    · intro c rest hc
      rw [nodeAt_eraseBelow]
      cases hp : (E ++ [name]).isPrefixOf (E ++ c :: rest) with
      | false => simp
      | true => exact absurd (isPrefixOf_sibling hp).symm hc

/-- C10 (amended): for an ordinary one-component name other than `--all`,
however `resetEnv name` ends, the environment root and everything under
every other entry of the root are exactly as they were; and it returns
unless `fs::exists` throws on the path. -/
theorem resetEnv_name_frame (cfg : Cfg) (name : String) (s : State)
    (hname : name ≠ "--all") (hv : validName name) :
    (fsExists s.fs (ENVS_PATH cfg ++ "/" ++ name) ≠ none →
      ∃ s1, resetEnv cfg name s = Result.ok s1) ∧
    ((∀ E, resolve s.fs (ENVS_PATH cfg) ≠ Lookup.found E) →
      (resetEnv cfg name s).state.fs = s.fs) ∧
    ∀ E, resolve s.fs (ENVS_PATH cfg) = Lookup.found E →
      nodeAt (resetEnv cfg name s).state.fs E = nodeAt s.fs E ∧
      ∀ c rest, c ≠ name →
        nodeAt (resetEnv cfg name s).state.fs (E ++ c :: rest)
          = nodeAt s.fs (E ++ c :: rest) := by
  have hfs : (resetEnv cfg name s).state.fs = s.fs ∨
      ∃ E, resolve s.fs (ENVS_PATH cfg) = Lookup.found E ∧
        ((resetEnv cfg name s).state.fs = prune s.fs (E ++ [name]) ∨
          (resetEnv cfg name s).state.fs = eraseBelow s.fs (E ++ [name])) := by
    rcases resetEnv_name_cases cfg name s hname with
      ⟨_, h1⟩ | ⟨_, h1⟩ | ⟨he, hrm⟩
    · rw [h1]; exact Or.inl rfl
    · rw [h1]; exact Or.inl rfl
    · obtain ⟨t, ht⟩ := fsExists_true_iff.mp he
      obtain ⟨E, hE, hEd, hte, _⟩ := resolve_child hv ht
      have hEr : resolve s.fs (ENVS_PATH cfg) = Lookup.found E :=
        resolve_eq_found.mpr ⟨ENVS_PATH_ne_empty cfg, hE, by rw [hEd]; rfl, ENVS_PATH_fits cfg⟩
      subst hte
      right
      refine ⟨E, hEr, ?_⟩
      rcases removeAll_child hv ht with h | h
      · rcases hrm with ⟨fs1, hr, _⟩ | ⟨fs1, hr, h1⟩
        · rw [h] at hr; simp at hr
        · rw [h] at hr
          have e := Result.ok.inj hr
          rw [h1, ← e]
          exact Or.inl rfl
      · rcases hrm with ⟨fs1, hr, _⟩ | ⟨fs1, hr, h1⟩
        · rw [h] at hr; simp at hr
        · rw [h] at hr
          have e := Result.ok.inj hr
          rw [h1, ← e]
          exact Or.inr rfl
  refine ⟨?_, ?_, ?_⟩
  · intro hex
    apply resetEnv_name_returns cfg name s hname hex
    intro t ht
    rcases removeAll_child hv ht with h | h
    · exact ⟨_, h⟩
    · exact ⟨_, h⟩
  · intro hno
    rcases hfs with h | ⟨E, hE, _⟩
    · exact h
    · exact absurd hE (hno E)
  · intro E hE
    apply frame_of_removed
    rcases hfs with h | ⟨E1, hE1, h⟩
    · exact Or.inl h
    · rw [hE] at hE1
      have e := Lookup.found.inj hE1
      subst e
      exact Or.inr h

theorem resetEnv_name_frame_witness :
    "a" ≠ "--all" ∧ validName "a" ∧
      resolve demoState.fs (ENVS_PATH demoCfg) = Lookup.found ["h", ".guv", "envs"] ∧
      (∃ s1, resetEnv demoCfg "a" demoState = Result.ok s1) ∧
      nodeAt (resetEnv demoCfg "a" demoState).state.fs ["h", ".guv", "envs"]
        = some Node.dir ∧
      nodeAt (resetEnv demoCfg "a" demoState).state.fs ["h", ".guv", "envs", "f"]
        = some (Node.file "x") ∧
      nodeAt (resetEnv demoCfg "a" demoState).state.fs ["h", ".guv", "envs", "a"] = none := by
  obtain ⟨hret, _, h⟩ := resetEnv_name_frame demoCfg "a" demoState (by decide) (by decide)
  have hE : resolve demoState.fs (ENVS_PATH demoCfg) = Lookup.found ["h", ".guv", "envs"] := by
    decide
  obtain ⟨h1, h2⟩ := h _ hE
  refine ⟨by decide, by decide, hE, hret (by decide), ?_, ?_, by decide⟩
  · rw [h1]; decide
  · have := h2 "f" [] (by decide)
    simp only [List.cons_append, List.nil_append] at this
    rw [this]; decide

/-- C10 (counterexample): `resetEnv "a/b"` empties the environment `a`, an
entry of the root whose leaf name is not `a/b`; and `resetEnv ""` removes
the environment root itself. -/
theorem resetEnv_name_frame_counterexample :
    WF demoState.fs ∧ "a/b" ≠ "--all" ∧ "a" ≠ "a/b" ∧
      isDirectory demoState.fs (ENVS_PATH demoCfg ++ "/" ++ "a") = some true ∧
      children demoState.fs ["h", ".guv", "envs", "a"] = ["b"] ∧
      resetEnv demoCfg "a/b" demoState = Result.ok
        { fs := [(["h"], Node.dir), (["h", ".guv"], Node.dir),
            (["h", ".guv", "envs"], Node.dir), (["h", ".guv", "envs", "a"], Node.dir),
            (["h", ".guv", "envs", "f"], Node.file "x")],
          trace := [Event.out (GREEN ++ "Deleted environment: " ++ "a/b" ++ RESET ++ "\n")] } ∧
      children (resetEnv demoCfg "a/b" demoState).state.fs ["h", ".guv", "envs", "a"] = [] ∧
      fsExists demoState.fs (ENVS_PATH demoCfg) = some true ∧
      resetEnv demoCfg "" demoState = Result.ok
        { fs := [(["h"], Node.dir), (["h", ".guv"], Node.dir)],
          trace := [Event.out (GREEN ++ "Deleted environment: " ++ "" ++ RESET ++ "\n")] } ∧
      fsExists (resetEnv demoCfg "" demoState).state.fs (ENVS_PATH demoCfg) = some false := by
  decide

/-! ### Guards of `makeVenv` and `cloneEnv` -/

theorem promptUVInstall_trace (cfg : Cfg) (s : State) :
    (promptUVInstall cfg s).trace = s.trace ++ (installGuidance cfg).map Event.err := by
  simp [promptUVInstall, State.emit, installGuidance]

theorem promptUVInstall_fs (cfg : Cfg) (s : State) : (promptUVInstall cfg s).fs = s.fs := rfl

theorem makeVenv_of_no_uv (cfg : Cfg) (sys : Sys) (name : String) (s : State)
    (hst : (sys (probeCmd cfg) s.fs).2 ≠ 0) :
    makeVenv cfg sys name s = Result.ok (promptUVInstall cfg
      { fs := (sys (probeCmd cfg) s.fs).1,
        trace := s.trace ++ [Event.system (probeCmd cfg)] }) := by
  simp [makeVenv, uvExists, system, hst]

theorem makeVenv_of_throw (cfg : Cfg) (sys : Sys) (name : String) (s : State)
    (hst : (sys (probeCmd cfg) s.fs).2 = 0)
    (hex : fsExists (sys (probeCmd cfg) s.fs).1 (ENVS_PATH cfg ++ "/" ++ name) = none) :
    makeVenv cfg sys name s = Result.thrown
      { fs := (sys (probeCmd cfg) s.fs).1,
        trace := s.trace ++ [Event.system (probeCmd cfg)] } := by
  simp [makeVenv, uvExists, system, hst, hex]

theorem makeVenv_of_exists (cfg : Cfg) (sys : Sys) (name : String) (s : State)
    (hst : (sys (probeCmd cfg) s.fs).2 = 0)
    (hex : fsExists (sys (probeCmd cfg) s.fs).1 (ENVS_PATH cfg ++ "/" ++ name) = some true) :
    makeVenv cfg sys name s = Result.ok
      { fs := (sys (probeCmd cfg) s.fs).1,
        trace := s.trace ++ [Event.system (probeCmd cfg),
          Event.err (RED ++ "Environment already exists: " ++ name ++ RESET ++ "\n")] } := by
  simp [makeVenv, uvExists, system, hst, hex, State.emit]

theorem makeVenv_of_absent (cfg : Cfg) (sys : Sys) (name : String) (s : State)
    (hst : (sys (probeCmd cfg) s.fs).2 = 0)
    (hex : fsExists (sys (probeCmd cfg) s.fs).1 (ENVS_PATH cfg ++ "/" ++ name) = some false) :
    makeVenv cfg sys name s =
      match createDirectories (sys (probeCmd cfg) s.fs).1 (ENVS_PATH cfg) with
      | Result.thrown fs2 =>
        Result.thrown { fs := fs2, trace := s.trace ++ [Event.system (probeCmd cfg)] }
      | Result.ok fs2 =>
        Result.ok
          { fs := (sys (venvCmd cfg name) fs2).1,
            trace := s.trace ++ [Event.system (probeCmd cfg),
              Event.out (GREEN ++ "Creating venv at " ++ (ENVS_PATH cfg ++ "/" ++ name) ++ RESET
                ++ "\n"),
              Event.system (venvCmd cfg name)] ++
              (if (sys (venvCmd cfg name) fs2).2 ≠ 0 then
                [Event.err (RED ++ "Failed to create virtual environment." ++ RESET ++ "\n")]
              else []) } := by
  unfold venvCmd
  simp only [makeVenv, uvExists, system, hst, hex, State.emit, decide_True, Bool.not_true,
    Bool.false_eq_true, if_false]
  cases createDirectories (sys (probeCmd cfg) s.fs).1 (ENVS_PATH cfg) with
  | thrown fs2 => rfl
  | ok fs2 =>
    simp only
    by_cases hv : (sys ("uv venv \"" ++ (ENVS_PATH cfg ++ "/" ++ name) ++ "\"") fs2).2 = 0
    · simp [hv]
    · simp [hv]

/-- C1 (counterexample): the environment `a` exists but the probe does not
find the tool; `makeVenv "a"` prints the install guidance and never the
"already exists" message. -/
theorem makeVenv_existing_counterexample :
    fsExists demoState.fs (ENVS_PATH demoCfg ++ "/" ++ "a") = some true ∧
      makeVenv demoCfg sysFail "a" demoState =
        Result.ok (promptUVInstall demoCfg
          { fs := demoFs, trace := [Event.system (probeCmd demoCfg)] }) ∧
      decide (Event.err (RED ++ "Environment already exists: " ++ "a" ++ RESET ++ "\n")
          ∈ (makeVenv demoCfg sysFail "a" demoState).state.trace) = false := by
  decide

/-- C1 (amended): when `environment_root/name` exists and the probe process
leaves the filesystem alone, `makeVenv name` returns with the filesystem
unchanged and the probe as its only child process; it reports "Environment
already exists" when the probe finds the tool and the install guidance when
it does not. -/
theorem makeVenv_existing (cfg : Cfg) (sys : Sys) (name : String) (s : State)
    (hro : (sys (probeCmd cfg) s.fs).1 = s.fs)
    (hex : fsExists s.fs (ENVS_PATH cfg ++ "/" ++ name) = some true) :
    ∃ s1, makeVenv cfg sys name s = Result.ok s1 ∧ s1.fs = s.fs ∧
      ((sys (probeCmd cfg) s.fs).2 = 0 →
        s1.trace = s.trace ++ [Event.system (probeCmd cfg),
          Event.err (RED ++ "Environment already exists: " ++ name ++ RESET ++ "\n")]) ∧
      ((sys (probeCmd cfg) s.fs).2 ≠ 0 →
        s1 = promptUVInstall cfg
          { fs := s.fs, trace := s.trace ++ [Event.system (probeCmd cfg)] }) := by
  by_cases hst : (sys (probeCmd cfg) s.fs).2 = 0
  · refine ⟨_, makeVenv_of_exists cfg sys name s hst (by rw [hro]; exact hex), hro, ?_, ?_⟩
    · intro _; rfl
    · intro h; exact absurd hst h
  · refine ⟨_, makeVenv_of_no_uv cfg sys name s hst, ?_, ?_, ?_⟩
    · simp [promptUVInstall, State.emit, hro]
    · intro h; exact absurd h hst
    · intro _; rw [hro]

theorem makeVenv_existing_witness :
    (sysOk (probeCmd demoCfg) demoState.fs).1 = demoState.fs ∧
      fsExists demoState.fs (ENVS_PATH demoCfg ++ "/" ++ "a") = some true ∧
      ∃ s1, makeVenv demoCfg sysOk "a" demoState = Result.ok s1 ∧ s1.fs = demoState.fs := by
  obtain ⟨s1, h1, h2, _⟩ :=
    makeVenv_existing demoCfg sysOk "a" demoState (by decide) (by decide)
  exact ⟨by decide, by decide, s1, h1, h2⟩

theorem cloneEnv_of_no_uv (cfg : Cfg) (sys : Sys) (src dest : String) (s : State)
    (hst : (sys (probeCmd cfg) s.fs).2 ≠ 0) :
    cloneEnv cfg sys src dest s = Result.ok (promptUVInstall cfg
      { fs := (sys (probeCmd cfg) s.fs).1,
        trace := s.trace ++ [Event.system (probeCmd cfg)] }) := by
  simp [cloneEnv, uvExists, system, hst]

theorem cloneEnv_of_src_throw (cfg : Cfg) (sys : Sys) (src dest : String) (s : State)
    (hst : (sys (probeCmd cfg) s.fs).2 = 0)
    (hsrc : fsExists (sys (probeCmd cfg) s.fs).1 (ENVS_PATH cfg ++ "/" ++ src) = none) :
    cloneEnv cfg sys src dest s = Result.thrown
      { fs := (sys (probeCmd cfg) s.fs).1,
        trace := s.trace ++ [Event.system (probeCmd cfg)] } := by
  simp [cloneEnv, uvExists, system, hst, hsrc]

theorem cloneEnv_of_no_src (cfg : Cfg) (sys : Sys) (src dest : String) (s : State)
    (hst : (sys (probeCmd cfg) s.fs).2 = 0)
    (hsrc : fsExists (sys (probeCmd cfg) s.fs).1 (ENVS_PATH cfg ++ "/" ++ src) = some false) :
    cloneEnv cfg sys src dest s = Result.ok
      { fs := (sys (probeCmd cfg) s.fs).1,
        trace := s.trace ++ [Event.system (probeCmd cfg),
          Event.err (RED ++ "Source env doesn't exist: " ++ src ++ RESET ++ "\n")] } := by
  simp [cloneEnv, uvExists, system, hst, hsrc, State.emit]

theorem cloneEnv_of_dest_throw (cfg : Cfg) (sys : Sys) (src dest : String) (s : State)
    (hst : (sys (probeCmd cfg) s.fs).2 = 0)
    (hsrc : fsExists (sys (probeCmd cfg) s.fs).1 (ENVS_PATH cfg ++ "/" ++ src) = some true)
    (hdst : fsExists (sys (probeCmd cfg) s.fs).1 (ENVS_PATH cfg ++ "/" ++ dest) = none) :
    cloneEnv cfg sys src dest s = Result.thrown
      { fs := (sys (probeCmd cfg) s.fs).1,
        trace := s.trace ++ [Event.system (probeCmd cfg)] } := by
  simp [cloneEnv, uvExists, system, hst, hsrc, hdst]

theorem cloneEnv_of_dest (cfg : Cfg) (sys : Sys) (src dest : String) (s : State)
    (hst : (sys (probeCmd cfg) s.fs).2 = 0)
    (hsrc : fsExists (sys (probeCmd cfg) s.fs).1 (ENVS_PATH cfg ++ "/" ++ src) = some true)
    (hdst : fsExists (sys (probeCmd cfg) s.fs).1 (ENVS_PATH cfg ++ "/" ++ dest) = some true) :
    cloneEnv cfg sys src dest s = Result.ok
      { fs := (sys (probeCmd cfg) s.fs).1,
        trace := s.trace ++ [Event.system (probeCmd cfg),
          Event.err (RED ++ "Destination already exists: " ++ dest ++ RESET ++ "\n")] } := by
  simp [cloneEnv, uvExists, system, hst, hsrc, hdst, State.emit]

/-- Past its guards `cloneEnv` runs the three commands and then removes the
manifest. -/
theorem cloneEnv_of_ready (cfg : Cfg) (sys : Sys) (src dest : String) (s : State)
    (hst : (sys (probeCmd cfg) s.fs).2 = 0)
    (hsrc : fsExists (sys (probeCmd cfg) s.fs).1 (ENVS_PATH cfg ++ "/" ++ src) = some true)
    (hdst : fsExists (sys (probeCmd cfg) s.fs).1 (ENVS_PATH cfg ++ "/" ++ dest) = some false) :
    cloneEnv cfg sys src dest s =
      match fsRemove (fsAfterInstall cfg sys src dest s.fs) (tempFile cfg) with
      | Result.thrown fs5 =>
        Result.thrown { fs := fs5, trace := s.trace ++ cloneEvents cfg src dest }
      | Result.ok fs5 =>
        Result.ok { fs := fs5, trace := s.trace ++ cloneEvents cfg src dest ++
          [Event.out (GREEN ++ "Successfully cloned " ++ src ++ " â†’ " ++ dest ++ RESET
            ++ "\n")] } := by
  simp only [cloneEnv, uvExists, system, hst, hsrc, hdst, State.emit, fsAfterInstall,
    cloneEvents, decide_True, Bool.not_true, Bool.false_eq_true, if_false]
  cases fsRemove (sys (installCmd cfg dest) (sys (venvCmd cfg dest) (sys (freezeCmd cfg src)
    (sys (probeCmd cfg) s.fs).1).1).1).1 (tempFile cfg) <;> simp

/-- C4: when `environment_root/dest` exists and the probe process leaves the
filesystem alone, then however `cloneEnv src dest` ends, the filesystem is
unchanged (so the temp manifest is neither created nor removed) and the
probe is the only child process: after it only messages on the error stream
follow.  It returns unless `fs::exists` throws on the source path. -/
theorem cloneEnv_dest_exists (cfg : Cfg) (sys : Sys) (src dest : String) (s : State)
    (hro : (sys (probeCmd cfg) s.fs).1 = s.fs)
    (hdst : fsExists s.fs (ENVS_PATH cfg ++ "/" ++ dest) = some true) :
    (cloneEnv cfg sys src dest s).state.fs = s.fs ∧
      fsExists (cloneEnv cfg sys src dest s).state.fs (tempFile cfg)
        = fsExists s.fs (tempFile cfg) ∧
      (∃ msgs : List String, (cloneEnv cfg sys src dest s).state.trace
        = s.trace ++ Event.system (probeCmd cfg) :: msgs.map Event.err) ∧
      (fsExists s.fs (ENVS_PATH cfg ++ "/" ++ src) ≠ none →
        ∃ s1, cloneEnv cfg sys src dest s = Result.ok s1) := by
  by_cases hst : (sys (probeCmd cfg) s.fs).2 = 0
  · cases hsrc : fsExists (sys (probeCmd cfg) s.fs).1 (ENVS_PATH cfg ++ "/" ++ src) with
    | none =>
      rw [cloneEnv_of_src_throw cfg sys src dest s hst hsrc]
      refine ⟨hro, by simp [Result.state, hro], ⟨[], rfl⟩, ?_⟩
      intro h
      rw [hro] at hsrc
      exact absurd hsrc h
    | some b =>
      cases b with
      | false =>
        rw [cloneEnv_of_no_src cfg sys src dest s hst hsrc]
        exact ⟨hro, by simp [Result.state, hro], ⟨[_], rfl⟩, fun _ => ⟨_, rfl⟩⟩
      | true =>
        rw [cloneEnv_of_dest cfg sys src dest s hst hsrc (by rw [hro]; exact hdst)]
        exact ⟨hro, by simp [Result.state, hro], ⟨[_], rfl⟩, fun _ => ⟨_, rfl⟩⟩
  · rw [cloneEnv_of_no_uv cfg sys src dest s hst]
    refine ⟨?_, ?_, ?_, fun _ => ⟨_, rfl⟩⟩
    · simp [Result.state, promptUVInstall_fs, hro]
    · simp [Result.state, promptUVInstall_fs, hro]
    · exact ⟨installGuidance cfg, by simp [Result.state, promptUVInstall_trace]⟩

theorem cloneEnv_dest_exists_witness :
    (sysOk (probeCmd demoCfg) demoState.fs).1 = demoState.fs ∧
      fsExists demoState.fs (ENVS_PATH demoCfg ++ "/" ++ "a") = some true ∧
      (∃ s1, cloneEnv demoCfg sysOk "f" "a" demoState = Result.ok s1) ∧
      (cloneEnv demoCfg sysOk "f" "a" demoState).state.fs = demoState.fs := by
  obtain ⟨h1, _, _, h2⟩ :=
    cloneEnv_dest_exists demoCfg sysOk "f" "a" demoState (by decide) (by decide)
  exact ⟨by decide, by decide, h2 (by decide), h1⟩

/-- C5 (counterexample): the source `zz` does not exist, and `cloneEnv` has
still spawned a child process, the availability probe of `uvExists`. -/
theorem cloneEnv_missing_src_counterexample :
    fsExists demoState.fs (ENVS_PATH demoCfg ++ "/" ++ "zz") = some false ∧
      cloneEnv demoCfg sysOk "zz" "q" demoState = Result.ok
        { fs := demoFs,
          trace := [Event.system "which uv > /dev/null 2>&1",
            Event.err (RED ++ "Source env doesn't exist: " ++ "zz" ++ RESET ++ "\n")] } := by
  decide

/-- C5 (amended): when `environment_root/src` does not exist and the probe
process leaves the filesystem alone, `cloneEnv src dest` returns with the
filesystem unchanged after spawning exactly one child process, the
availability probe: no freeze, create or install command is run. -/
theorem cloneEnv_missing_src (cfg : Cfg) (sys : Sys) (src dest : String) (s : State)
    (hro : (sys (probeCmd cfg) s.fs).1 = s.fs)
    (hsrc : fsExists s.fs (ENVS_PATH cfg ++ "/" ++ src) = some false) :
    ∃ s1, cloneEnv cfg sys src dest s = Result.ok s1 ∧ s1.fs = s.fs ∧
      ∃ msgs : List String,
        s1.trace = s.trace ++ Event.system (probeCmd cfg) :: msgs.map Event.err := by
  by_cases hst : (sys (probeCmd cfg) s.fs).2 = 0
  · refine ⟨_, cloneEnv_of_no_src cfg sys src dest s hst (by rw [hro]; exact hsrc), hro, ?_⟩
    exact ⟨[_], rfl⟩
  · refine ⟨_, cloneEnv_of_no_uv cfg sys src dest s hst, ?_, ?_⟩
    · simp [promptUVInstall, State.emit, hro]
    · exact ⟨installGuidance cfg, by simp [promptUVInstall_trace]⟩

theorem cloneEnv_missing_src_witness :
    (sysOk (probeCmd demoCfg) demoState.fs).1 = demoState.fs ∧
      fsExists demoState.fs (ENVS_PATH demoCfg ++ "/" ++ "zz") = some false ∧
      ∃ s1, cloneEnv demoCfg sysOk "zz" "q" demoState = Result.ok s1 ∧
        s1.fs = demoState.fs := by
  obtain ⟨s1, h1, h2, _⟩ :=
    cloneEnv_missing_src demoCfg sysOk "zz" "q" demoState (by decide) (by decide)
  exact ⟨by decide, by decide, s1, h1, h2⟩

/-! ### The full clone -/

/-- What `fs::remove` does with the temp manifest path. -/
theorem fsRemove_tempFile (cfg : Cfg) (fs : FS) :
    (removable fs (tempFile cfg) = true ∧
      ∃ fs5, fsRemove fs (tempFile cfg) = Result.ok fs5 ∧ Sub fs5 fs ∧
        fsExists fs5 (tempFile cfg) = some false) ∨
    (removable fs (tempFile cfg) = false ∧
      fsRemove fs (tempFile cfg) = Result.thrown fs) := by
  rcases fsRemove_cases fs (tempFile cfg) with
    ⟨hr, h⟩ | ⟨⟨e, hr, hne⟩, h⟩ | ⟨t, hr, ⟨hc, h⟩ | ⟨hc, h⟩⟩
  · left
    refine ⟨by simp [removable, hr], fs, h, ?_⟩
    exact fsRemove_ok_spec h
  · right
    refine ⟨?_, h⟩
    cases e with
    | ENOENT => exact absurd rfl hne
    | ENOTDIR => simp [removable, hr]
    | ENAMETOOLONG => simp [removable, hr]
  · right
    refine ⟨?_, h⟩
    rcases hc with hc | hc | hc
    · rw [finalDotted_tempFile] at hc; simp at hc
    · have := resolve_ne_nil fs _ t "temp.txt" hr (by decide)
        (by rw [components_tempFile]; simp) (finalDotted_tempFile cfg)
      exact absurd hc this
    · simp [removable, hr, hc.1, hc.2]
  · left
    refine ⟨?_, _, h, fsRemove_ok_spec h⟩
    have hn := hc.2.2
    simp only [removable, hr]
    by_cases hd : nodeAt fs t = some Node.dir
    · have : hasChild fs t = false := by
        cases hh : hasChild fs t with
        | false => rfl
        | true => exact absurd ⟨hd, hh⟩ hn
      simp [hd, this]
    · simp [hd]

/-- C9 (counterexample): the clone preconditions hold and the three commands
run, but the temp manifest path is a non-empty directory; `fs::remove`
throws, the path is still there and the "Successfully cloned" message is
never printed. -/
theorem cloneEnv_ready_counterexample :
    WF demoFsTempDir ∧
      (sysProbeOnly (probeCmd demoCfg) demoFsTempDir).2 = 0 ∧
      fsExists demoFsTempDir (ENVS_PATH demoCfg ++ "/" ++ "a") = some true ∧
      fsExists demoFsTempDir (ENVS_PATH demoCfg ++ "/" ++ "z") = some false ∧
      cloneEnv demoCfg sysProbeOnly "a" "z" { fs := demoFsTempDir, trace := [] }
        = Result.thrown { fs := demoFsTempDir, trace := cloneEvents demoCfg "a" "z" } ∧
      cloneEnv demoCfg sysOk "a" "z" { fs := demoFsTempDir, trace := [] }
        = Result.thrown { fs := demoFsTempDir, trace := cloneEvents demoCfg "a" "z" } ∧
      fsExists demoFsTempDir (tempFile demoCfg) = some true := by
  decide

/-- C9 (amended): when the clone preconditions hold (the probe exits with 0,
`src` exists, `dest` does not), then whatever statuses the processes return,
`cloneEnv src dest` runs the freeze, create and install commands once each
in this order.  When the temp manifest path is then missing, a regular file
or an empty directory, it removes it, ends with the "Successfully cloned"
message and returns, and the temp manifest does not exist after.  Otherwise
`fs::remove` throws right after the install command: nothing is removed and
no message follows. -/
theorem cloneEnv_ready (cfg : Cfg) (sys : Sys) (src dest : String) (s : State)
    (hst : (sys (probeCmd cfg) s.fs).2 = 0)
    (hsrc : fsExists (sys (probeCmd cfg) s.fs).1 (ENVS_PATH cfg ++ "/" ++ src) = some true)
    (hdst : fsExists (sys (probeCmd cfg) s.fs).1 (ENVS_PATH cfg ++ "/" ++ dest)
      = some false) :
    (∃ rest, (cloneEnv cfg sys src dest s).state.trace
        = s.trace ++ cloneEvents cfg src dest ++ rest ∧
      (rest = [] ∨ rest = [Event.out (GREEN ++ "Successfully cloned " ++ src ++ " â†’ "
        ++ dest ++ RESET ++ "\n")])) ∧
    (removable (fsAfterInstall cfg sys src dest s.fs) (tempFile cfg) = true →
      ∃ s1, cloneEnv cfg sys src dest s = Result.ok s1 ∧
        s1.trace = s.trace ++ cloneEvents cfg src dest ++
          [Event.out (GREEN ++ "Successfully cloned " ++ src ++ " â†’ " ++ dest ++ RESET
            ++ "\n")] ∧
        fsRemove (fsAfterInstall cfg sys src dest s.fs) (tempFile cfg) = Result.ok s1.fs ∧
        fsExists s1.fs (tempFile cfg) = some false) ∧
    (removable (fsAfterInstall cfg sys src dest s.fs) (tempFile cfg) = false →
      cloneEnv cfg sys src dest s = Result.thrown
        { fs := fsAfterInstall cfg sys src dest s.fs,
          trace := s.trace ++ cloneEvents cfg src dest }) := by
  have hc := cloneEnv_of_ready cfg sys src dest s hst hsrc hdst
  rcases fsRemove_tempFile cfg (fsAfterInstall cfg sys src dest s.fs) with
    ⟨hrem, fs5, h5, _, hex⟩ | ⟨hrem, h5⟩
  · rw [h5] at hc
    simp only at hc
    refine ⟨⟨_, by rw [hc]; rfl, Or.inr rfl⟩, ?_, ?_⟩
    · intro _
      exact ⟨_, hc, rfl, h5, hex⟩
    · intro h
      rw [hrem] at h
      simp at h
  · rw [h5] at hc
    simp only at hc
    refine ⟨⟨[], by rw [hc]; simp [Result.state], Or.inl rfl⟩, ?_, ?_⟩
    · intro h
      rw [hrem] at h
      simp at h
    · intro _
      exact hc

theorem cloneEnv_ready_witness :
    (sysClone (probeCmd demoCfg) demoFs).2 = 0 ∧
      (sysClone (installCmd demoCfg "z") demoFs).2 ≠ 0 ∧
      fsExists demoFs (ENVS_PATH demoCfg ++ "/" ++ "a") = some true ∧
      fsExists demoFs (ENVS_PATH demoCfg ++ "/" ++ "z") = some false ∧
      nodeAt (fsAfterInstall demoCfg sysClone "a" "z" demoFs) ["h", ".guv", "temp.txt"]
        = some (Node.file "pkg==1.0\n") ∧
      cloneEvents demoCfg "a" "z" =
        [Event.system "which uv > /dev/null 2>&1",
         Event.out "\x1b[1;36mFreezing packages from 'a'...\x1b[0m\n",
         Event.system
           "bash -c 'source /h/.guv/envs/a/bin/activate && uv pip freeze > \"/h/.guv/temp.txt\"'",
         Event.out "\x1b[1;36mCreating 'z'...\x1b[0m\n",
         Event.system "uv venv \"/h/.guv/envs/z\"",
         Event.out "\x1b[1;36mInstalling into 'z'...\x1b[0m\n",
         Event.system
           "bash -c 'source /h/.guv/envs/z/bin/activate && uv pip install -r \"/h/.guv/temp.txt\"'"] ∧
      ∃ s1, cloneEnv demoCfg sysClone "a" "z" demoState = Result.ok s1 ∧
        s1.trace = demoState.trace ++ cloneEvents demoCfg "a" "z" ++
          [Event.out (GREEN ++ "Successfully cloned " ++ "a" ++ " â†’ " ++ "z" ++ RESET
            ++ "\n")] ∧
        nodeAt s1.fs ["h", ".guv", "temp.txt"] = none ∧
        fsExists s1.fs (tempFile demoCfg) = some false := by
  obtain ⟨s1, h1, h2, h4, h3⟩ := (cloneEnv_ready demoCfg sysClone "a" "z" demoState
    (by decide) (by decide) (by decide)).2.1 (by decide)
  have h5 : fsRemove (fsAfterInstall demoCfg sysClone "a" "z" demoState.fs)
      (tempFile demoCfg) = Result.ok (demoFs ++ [(["h", ".guv", "envs", "z"], Node.dir)]) := by
    decide
  rw [h5] at h4
  have h6 := Result.ok.inj h4
  refine ⟨by decide, by decide, by decide, by decide, by decide, by decide, s1, h1, h2, ?_, h3⟩
  rw [← h6]
  decide

/-! ### The dispatcher -/

/-- C8: `run` follows the command table, on every argument vector.  Fewer
than two entries print the usage text only; each command with its required
arguments is exactly its lifecycle operation on those arguments; `list`,
`config`, `help`, `--help`, `-h` and `version` do what their row says;
`venv`, `reset`, `activate` without argument, `clone` with fewer than two,
and every word outside the table take the unknown-command path, which prints
the error message and then the usage text and touches nothing else. -/
theorem run_dispatch (cfg : Cfg) (sys : Sys) (s : State) :
    (∀ argv : List String, argv.length < 2 → run cfg sys argv s = Result.ok (printHelp s)) ∧
    (∀ prog name rest, run cfg sys (prog :: "venv" :: name :: rest) s
        = makeVenv cfg sys name s) ∧
    (∀ prog src dest rest, run cfg sys (prog :: "clone" :: src :: dest :: rest) s
        = cloneEnv cfg sys src dest s) ∧
    (∀ prog name rest, run cfg sys (prog :: "reset" :: name :: rest) s
        = resetEnv cfg name s) ∧
    (∀ prog name rest, run cfg sys (prog :: "activate" :: name :: rest) s
        = activateEnv cfg name s) ∧
    (∀ prog rest, run cfg sys (prog :: "list" :: rest) s = listEnvs cfg s) ∧
    (∀ prog rest, run cfg sys (prog :: "config" :: rest) s
        = Result.ok { fs := s.fs, trace := s.trace ++
            [Event.out ("\x1b[1;36m" ++ "Config system not implemented.\n" ++ "\x1b[0m")] }) ∧
    (∀ prog rest, run cfg sys (prog :: "help" :: rest) s = Result.ok (printHelp s)) ∧
    (∀ prog rest, run cfg sys (prog :: "--help" :: rest) s = Result.ok (printHelp s)) ∧
    (∀ prog rest, run cfg sys (prog :: "-h" :: rest) s = Result.ok (printHelp s)) ∧
    (∀ prog rest, run cfg sys (prog :: "version" :: rest) s
        = Result.ok { fs := s.fs, trace := s.trace ++ [Event.out "guv version 0.2.1\n"] }) ∧
    (∀ prog, run cfg sys [prog, "venv"] s = Result.ok (unknownCommand s)) ∧
    (∀ prog, run cfg sys [prog, "reset"] s = Result.ok (unknownCommand s)) ∧
    (∀ prog, run cfg sys [prog, "activate"] s = Result.ok (unknownCommand s)) ∧
    (∀ prog, run cfg sys [prog, "clone"] s = Result.ok (unknownCommand s)) ∧
    (∀ prog src, run cfg sys [prog, "clone", src] s = Result.ok (unknownCommand s)) ∧
    (∀ prog cmd rest,
        cmd ∉ ["venv", "clone", "reset", "activate", "list", "config", "help", "--help",
          "-h", "version"] →
        run cfg sys (prog :: cmd :: rest) s = Result.ok (unknownCommand s)) ∧
    unknownCommand s = printHelp { fs := s.fs, trace := s.trace ++
      [Event.err ("\x1b[1;31m" ++ "Unknown or invalid command.\n" ++ "\x1b[0m")] } ∧
    printHelp s = { fs := s.fs, trace := s.trace ++
      [Event.out ("\x1b[1;36m" ++ "GUV - Global UV Environment Manager\n\n" ++ "\x1b[0m"),
       Event.out "Usage:\n",
       Event.out "  guv venv <envname>         Create new environment\n",
       Event.out "  guv clone <src> <dst>      Clone environment\n",
       Event.out "  guv reset <envname>        Delete specific environment\n",
       Event.out "  guv reset --all            Delete all environments\n",
       Event.out "  guv activate <envname>     Show activation command\n",
       Event.out "  guv list                   List all environments\n",
       Event.out "  guv config                 Config (not implemented yet)\n",
       Event.out "  guv help                   Show this help message\n"] } := by
  refine ⟨?_, ?_, ?_, ?_, ?_, ?_, ?_, ?_, ?_, ?_, ?_, ?_, ?_, ?_, ?_, ?_, ?_, rfl, rfl⟩
  · intro argv h
    simp [run, h]
  · intro prog name rest
    simp [run]
  · intro prog src dest rest
    simp [run]
  · intro prog name rest
    simp [run]
  · intro prog name rest
    simp [run]
  · intro prog rest
    simp [run]
  · intro prog rest
    simp [run, State.emit, CYAN, RESET]
  · intro prog rest
    simp [run]
  · intro prog rest
    simp [run]
  · intro prog rest
    simp [run]
  · intro prog rest
    simp [run, State.emit]
  · intro prog
    simp [run]
  · intro prog
    simp [run]
  · intro prog
    simp [run]
  · intro prog
    simp [run]
  · intro prog src
    simp [run]
  · intro prog cmd rest h
    simp only [List.mem_cons, List.mem_singleton, List.not_mem_nil, or_false, not_or] at h
    obtain ⟨h1, h2, h3, h4, h5, h6, h7, h8, h9, h10⟩ := h
    simp [run, h1, h2, h3, h4, h5, h6, h7, h8, h9, h10]

theorem run_dispatch_witness :
    run demoCfg sysOk ["guv"] demoState = Result.ok (printHelp demoState) ∧
      run demoCfg sysOk ["guv", "frobnicate", "a"] demoState
        = Result.ok (unknownCommand demoState) := by
  have h := run_dispatch demoCfg sysOk demoState
  exact ⟨h.1 ["guv"] (by decide),
    h.2.2.2.2.2.2.2.2.2.2.2.2.2.2.2.2.1 "guv" "frobnicate" ["a"] (by decide)⟩

/-! ### Which names are listed -/

theorem listed_is_directory {cfg : Cfg} {fs : FS} (hwf : WF fs) {entries : List String}
    (hit : directoryIterator fs (ENVS_PATH cfg) = some entries) {name : String}
    (h : Event.out (entryLine name) ∈ listedEvents cfg fs entries) :
    validName name ∧ isDirectory fs (ENVS_PATH cfg ++ "/" ++ name) = some true := by
  obtain ⟨E, _, _, hent⟩ := directoryIterator_eq_some hit
  obtain ⟨entry, hmem, hdir, hev⟩ := mem_listedEvents h
  rw [hent, List.mem_map] at hmem
  obtain ⟨c, hc, hce⟩ := hmem
  have hv := (children_valid hwf hc).1
  rcases hev with hev | hev
  · have hn : name = filename entry := entryLine_inj (Event.out.inj hev)
    rw [← hce, filename_child _ hv] at hn
    rw [hn]
    exact ⟨hv, by rw [hce]; exact hdir⟩
  · exact absurd (Event.out.inj hev) (entryLine_ne_activationLine cfg _ _)

theorem directory_is_listed {cfg : Cfg} {fs : FS} {entries : List String}
    (hit : directoryIterator fs (ENVS_PATH cfg) = some entries) {name : String}
    (hv : validName name) (hd : isDirectory fs (ENVS_PATH cfg ++ "/" ++ name) = some true) :
    Event.out (entryLine name) ∈ listedEvents cfg fs entries := by
  obtain ⟨E, hE, _, hent⟩ := directoryIterator_eq_some hit
  obtain ⟨t, ht, htd⟩ := isDirectory_true_iff.mp hd
  obtain ⟨E1, hE1, _, hte, _⟩ := resolve_child hv ht
  have hEE : E1 = E := by
    have := (resolve_eq_found.mp hE).2.1
    rw [hE1] at this
    exact Lookup.found.inj this
  subst hEE
  subst hte
  have hmem : name ∈ children fs E1 := by
    rw [mem_children_iff_isSome, htd]; rfl
  have hentry : ENVS_PATH cfg ++ "/" ++ name ∈ entries := by
    rw [hent, List.mem_map]; exact ⟨name, hmem, rfl⟩
  have := listedEvents_mem cfg hentry hd
  rwa [filename_child _ hv] at this

/-- In a well-formed tree `listEnvs` returns once the environment root is a
directory. -/
theorem listEnvs_of_root_dir (cfg : Cfg) (s : State) (hwf : WF s.fs) (E : Path)
    (hE : resolve s.fs (ENVS_PATH cfg) = Lookup.found E)
    (hEd : nodeAt s.fs E = some Node.dir) :
    listEnvs cfg s = Result.ok
      { fs := s.fs,
        trace := s.trace ++
          listedEvents cfg s.fs ((children s.fs E).map (fun c => ENVS_PATH cfg ++ "/" ++ c)) ++
          (if ((children s.fs E).map (fun c => ENVS_PATH cfg ++ "/" ++ c)).any
              (fun e => decide (isDirectory s.fs e = some true)) = true then []
            else [Event.out (RED ++ "No environments found.\n" ++ RESET)]) } := by
  apply listEnvs_of_entries cfg s _ (fsExists_true_iff.mpr ⟨E, hE⟩)
    (directoryIterator_of_dir hE hEd)
  intro e he
  rw [List.mem_map] at he
  obtain ⟨c, hc, hce⟩ := he
  rw [← hce, isDirectory_entry hwf cfg hE hEd hc]
  simp

theorem listEnvs_cases (cfg : Cfg) (s : State) (hwf : WF s.fs) :
    (fsExists s.fs (ENVS_PATH cfg) = none ∧ listEnvs cfg s = Result.thrown s) ∨
    (fsExists s.fs (ENVS_PATH cfg) = some false ∧
      listEnvs cfg s = Result.ok (s.emit (Event.out
        (RED ++ "No environments directory at " ++ ENVS_PATH cfg ++ RESET ++ "\n")))) ∨
    (fsExists s.fs (ENVS_PATH cfg) = some true ∧
      isDirectory s.fs (ENVS_PATH cfg) = some false ∧ listEnvs cfg s = Result.thrown s) ∨
    (∃ E, resolve s.fs (ENVS_PATH cfg) = Lookup.found E ∧ nodeAt s.fs E = some Node.dir ∧
      directoryIterator s.fs (ENVS_PATH cfg)
        = some ((children s.fs E).map (fun c => ENVS_PATH cfg ++ "/" ++ c)) ∧
      listEnvs cfg s = Result.ok
        { fs := s.fs,
          trace := s.trace ++
            listedEvents cfg s.fs
              ((children s.fs E).map (fun c => ENVS_PATH cfg ++ "/" ++ c)) ++
            (if ((children s.fs E).map (fun c => ENVS_PATH cfg ++ "/" ++ c)).any
                (fun e => decide (isDirectory s.fs e = some true)) = true then []
              else [Event.out (RED ++ "No environments found.\n" ++ RESET)]) }) := by
  cases hex : fsExists s.fs (ENVS_PATH cfg) with
  | none => exact Or.inl ⟨rfl, by simp [listEnvs, hex]⟩
  | some b =>
    cases b with
    | false => exact Or.inr (Or.inl ⟨rfl, by simp [listEnvs, hex]⟩)
    | true =>
      obtain ⟨E, hE⟩ := fsExists_true_iff.mp hex
      by_cases hEd : nodeAt s.fs E = some Node.dir
      · exact Or.inr (Or.inr (Or.inr ⟨E, hE, hEd, directoryIterator_of_dir hE hEd,
          listEnvs_of_root_dir cfg s hwf E hE hEd⟩))
      · refine Or.inr (Or.inr (Or.inl ⟨rfl, ?_, ?_⟩))
        · simp [isDirectory, hE, hEd]
        · simp [listEnvs, hex, directoryIterator, hE, hEd]

/-- The names `listEnvs` prints, in a well-formed tree. -/
theorem listEnvs_listing (cfg : Cfg) (s s1 : State) (hwf : WF s.fs)
    (h1 : listEnvs cfg s = Result.ok s1) :
    ∃ new, s1.trace = s.trace ++ new ∧
      (∀ name, Event.out (entryLine name) ∈ new →
        validName name ∧ isDirectory s.fs (ENVS_PATH cfg ++ "/" ++ name) = some true) ∧
      (∀ name, validName name →
        isDirectory s.fs (ENVS_PATH cfg ++ "/" ++ name) = some true →
        Event.out (entryLine name) ∈ new) := by
  rcases listEnvs_cases cfg s hwf with ⟨_, h⟩ | ⟨hex, h⟩ | ⟨_, _, h⟩ | ⟨E, hE, hEd, hit, h⟩
  · rw [h] at h1; simp at h1
  · rw [h] at h1
    have e := Result.ok.inj h1
    subst e
    refine ⟨[_], rfl, ?_, ?_⟩
    · intro name hmem
      simp only [List.mem_singleton] at hmem
      have := Event.out.inj hmem
      rw [no_root_message_red] at this
      exact absurd this (entryLine_ne_red _ _)
    · intro name hv hd
      obtain ⟨t, ht, _⟩ := isDirectory_true_iff.mp hd
      obtain ⟨E, hE, _⟩ := resolve_join_left (ENVS_PATH_ne_empty cfg) ht
      have := fsExists_true_iff.mpr ⟨E, hE⟩
      rw [hex] at this
      simp at this
  · rw [h] at h1; simp at h1
  · rw [h] at h1
    have e := Result.ok.inj h1
    subst e
    refine ⟨_, List.append_assoc _ _ _, ?_, ?_⟩
    · intro name hmem
      rw [List.mem_append] at hmem
      have hl : Event.out (entryLine name) ∈ listedEvents cfg s.fs
          ((children s.fs E).map (fun c => ENVS_PATH cfg ++ "/" ++ c)) := by
        rcases hmem with hmem | hmem
        · exact hmem
        · by_cases ha : ((children s.fs E).map (fun c => ENVS_PATH cfg ++ "/" ++ c)).any
              (fun e => decide (isDirectory s.fs e = some true)) = true
          · simp [ha] at hmem
          · simp only [ha, Bool.false_eq_true, if_false, List.mem_singleton] at hmem
            have := Event.out.inj hmem
            rw [none_found_message_red] at this
            exact absurd this (entryLine_ne_red _ _)
      exact listed_is_directory hwf hit hl
    · intro name hv hd
      exact List.mem_append_left _ (directory_is_listed hit hv hd)

/-! ### The existence check -/

/-- The check on `environment_root/name` against the entries of the root. -/
theorem exists_check_entries {fs : FS} (hwf : WF fs) (cfg : Cfg) {E : Path}
    (hE : resolve fs (ENVS_PATH cfg) = Lookup.found E) (hEd : nodeAt fs E = some Node.dir)
    {name : String} (hv : validName name) :
    (fsExists fs (ENVS_PATH cfg ++ "/" ++ name) = some true ↔ name ∈ children fs E) ∧
    (isDirectory fs (ENVS_PATH cfg ++ "/" ++ name) = some true ↔
      nodeAt fs (E ++ [name]) = some Node.dir) := by
  have hEt := (resolve_eq_found.mp hE).2.1
  have hfit_of : ∀ t, resolve fs (ENVS_PATH cfg ++ "/" ++ name) = Lookup.found t →
      name.utf8ByteSize ≤ NAME_MAX := by
    intro t ht
    obtain ⟨_, _, _, _, hfit⟩ := resolve_child hv ht
    exact hfit
  constructor
  · constructor
    · intro h
      obtain ⟨t, ht⟩ := fsExists_true_iff.mp h
      rw [fsExists_child hv (hfit_of t ht) (entry_fits cfg (hfit_of t ht)) hE hEd] at h
      rw [mem_children_iff_isSome]
      simpa using h
    · intro h
      rw [fsExists_child hv (children_valid hwf h).2 (entry_fits cfg (children_valid hwf h).2) hE hEd]
      rw [mem_children_iff_isSome] at h
      rw [h]
  · constructor
    · intro h
      obtain ⟨t, ht, _⟩ := isDirectory_true_iff.mp h
      rw [isDirectory_child hv (hfit_of t ht) (entry_fits cfg (hfit_of t ht)) hE hEd] at h
      simpa using h
    · intro h
      have hmem : name ∈ children fs E := by
        rw [mem_children_iff_isSome, h]; rfl
      rw [isDirectory_child hv (children_valid hwf hmem).2 (entry_fits cfg (children_valid hwf hmem).2) hE hEd, h]
      simp

/-- C7 (counterexample): `environment_root/f` is a regular file; the
existence check is true for `f`, so `makeVenv "f"` reports "already exists"
and `resetEnv "f"` deletes it, though `f` is not a directory and `listEnvs`
does not print it. -/
theorem exists_check_counterexample :
    WF demoFs ∧
      nodeAt demoFs ["h", ".guv", "envs", "f"] = some (Node.file "x") ∧
      fsExists demoFs (ENVS_PATH demoCfg ++ "/" ++ "f") = some true ∧
      isDirectory demoFs (ENVS_PATH demoCfg ++ "/" ++ "f") = some false ∧
      makeVenv demoCfg sysOk "f" demoState = Result.ok
        { fs := demoFs,
          trace := [Event.system (probeCmd demoCfg),
            Event.err (RED ++ "Environment already exists: " ++ "f" ++ RESET ++ "\n")] } ∧
      resetEnv demoCfg "f" demoState = Result.ok
        { fs := [(["h"], Node.dir), (["h", ".guv"], Node.dir),
            (["h", ".guv", "envs"], Node.dir), (["h", ".guv", "envs", "a"], Node.dir),
            (["h", ".guv", "envs", "a", "b"], Node.dir)],
          trace := [Event.out (GREEN ++ "Deleted environment: " ++ "f" ++ RESET ++ "\n")] } ∧
      listEnvs demoCfg demoState = Result.ok
        { fs := demoFs,
          trace := [Event.out (entryLine "a"),
            Event.out "    Bash: source \"/h/.guv/envs/a/bin/activate\"\n"] } := by
  decide

/-- C7 (amended): the existence check that `makeVenv`, `cloneEnv` and
`resetEnv` branch on is `fs::exists`: with the check true `makeVenv` reports
"already exists", `cloneEnv` accepts the source and rejects the destination,
and `resetEnv` removes; with the check false `makeVenv` goes on to create,
`cloneEnv` rejects the source, and `resetEnv` reports "not found".  In a
well-formed tree the check is true for an ordinary one-component name
exactly when the name is an entry of the environment root, a regular file
or a directory, and `listEnvs` prints exactly the ordinary names that are
directories: every printed name passes the check, a regular file passes the
check and is not printed.  `listEnvs` returns when the environment root is a
directory or reported absent. -/
theorem exists_check_and_listing (cfg : Cfg) (s : State) (hwf : WF s.fs) :
    (∀ sys name, (sys (probeCmd cfg) s.fs).1 = s.fs → (sys (probeCmd cfg) s.fs).2 = 0 →
      (fsExists s.fs (ENVS_PATH cfg ++ "/" ++ name) = some true →
        makeVenv cfg sys name s = Result.ok
          { fs := s.fs,
            trace := s.trace ++ [Event.system (probeCmd cfg),
              Event.err (RED ++ "Environment already exists: " ++ name ++ RESET ++ "\n")] }) ∧
      (fsExists s.fs (ENVS_PATH cfg ++ "/" ++ name) = some false →
        ∀ fs2, createDirectories s.fs (ENVS_PATH cfg) = Result.ok fs2 →
          ∃ s1, makeVenv cfg sys name s = Result.ok s1 ∧
            s1.fs = (sys (venvCmd cfg name) fs2).1 ∧
            Event.system (venvCmd cfg name) ∈ s1.trace)) ∧
    (∀ sys src dest, (sys (probeCmd cfg) s.fs).1 = s.fs → (sys (probeCmd cfg) s.fs).2 = 0 →
      (fsExists s.fs (ENVS_PATH cfg ++ "/" ++ src) = some false →
        cloneEnv cfg sys src dest s = Result.ok
          { fs := s.fs,
            trace := s.trace ++ [Event.system (probeCmd cfg),
              Event.err (RED ++ "Source env doesn't exist: " ++ src ++ RESET ++ "\n")] }) ∧
      (fsExists s.fs (ENVS_PATH cfg ++ "/" ++ src) = some true →
        fsExists s.fs (ENVS_PATH cfg ++ "/" ++ dest) = some true →
        cloneEnv cfg sys src dest s = Result.ok
          { fs := s.fs,
            trace := s.trace ++ [Event.system (probeCmd cfg),
              Event.err (RED ++ "Destination already exists: " ++ dest ++ RESET ++ "\n")] }) ∧
      (fsExists s.fs (ENVS_PATH cfg ++ "/" ++ src) = some true →
        fsExists s.fs (ENVS_PATH cfg ++ "/" ++ dest) = some false →
        ∃ rest, (cloneEnv cfg sys src dest s).state.trace
          = s.trace ++ cloneEvents cfg src dest ++ rest)) ∧
    (∀ name, name ≠ "--all" →
      (fsExists s.fs (ENVS_PATH cfg ++ "/" ++ name) = some false →
        resetEnv cfg name s = Result.ok (s.emit
          (Event.err (RED ++ "Environment not found: " ++ name ++ RESET ++ "\n")))) ∧
      (fsExists s.fs (ENVS_PATH cfg ++ "/" ++ name) = some true →
        (resetEnv cfg name s).state.fs
          = (removeAll s.fs (ENVS_PATH cfg ++ "/" ++ name)).state)) ∧
    (∀ E, resolve s.fs (ENVS_PATH cfg) = Lookup.found E → nodeAt s.fs E = some Node.dir →
      ∀ name, validName name →
        (fsExists s.fs (ENVS_PATH cfg ++ "/" ++ name) = some true ↔
          name ∈ children s.fs E) ∧
        (isDirectory s.fs (ENVS_PATH cfg ++ "/" ++ name) = some true ↔
          nodeAt s.fs (E ++ [name]) = some Node.dir) ∧
        (∀ content, nodeAt s.fs (E ++ [name]) = some (Node.file content) →
          fsExists s.fs (ENVS_PATH cfg ++ "/" ++ name) = some true ∧
          isDirectory s.fs (ENVS_PATH cfg ++ "/" ++ name) ≠ some true)) ∧
    (∀ s1, listEnvs cfg s = Result.ok s1 →
      ∃ new, s1.trace = s.trace ++ new ∧
        (∀ name, Event.out (entryLine name) ∈ new →
          validName name ∧
          isDirectory s.fs (ENVS_PATH cfg ++ "/" ++ name) = some true ∧
          fsExists s.fs (ENVS_PATH cfg ++ "/" ++ name) = some true) ∧
        (∀ name, validName name →
          isDirectory s.fs (ENVS_PATH cfg ++ "/" ++ name) = some true →
          Event.out (entryLine name) ∈ new)) ∧
    (fsExists s.fs (ENVS_PATH cfg) = some false ∨
        isDirectory s.fs (ENVS_PATH cfg) = some true →
      ∃ s1, listEnvs cfg s = Result.ok s1) := by
  refine ⟨?_, ?_, ?_, ?_, ?_, ?_⟩
  · intro sys name hro hst
    constructor
    · intro hex
      have := makeVenv_of_exists cfg sys name s hst (by rw [hro]; exact hex)
      rw [hro] at this
      exact this
    · intro hex fs2 hcd
      have := makeVenv_of_absent cfg sys name s hst (by rw [hro]; exact hex)
      rw [hro, hcd] at this
      exact ⟨_, this, rfl, by simp⟩
  · intro sys src dest hro hst
    refine ⟨?_, ?_, ?_⟩
    · intro hsrc
      have := cloneEnv_of_no_src cfg sys src dest s hst (by rw [hro]; exact hsrc)
      rw [hro] at this
      exact this
    · intro hsrc hdst
      have := cloneEnv_of_dest cfg sys src dest s hst (by rw [hro]; exact hsrc)
        (by rw [hro]; exact hdst)
      rw [hro] at this
      exact this
    · intro hsrc hdst
      rw [cloneEnv_of_ready cfg sys src dest s hst (by rw [hro]; exact hsrc)
        (by rw [hro]; exact hdst)]
      cases fsRemove (fsAfterInstall cfg sys src dest s.fs) (tempFile cfg) with
      | thrown fs5 => exact ⟨[], by simp [Result.state]⟩
      | ok fs5 => exact ⟨_, rfl⟩
  · intro name hname
    constructor
    · intro hex
      rcases resetEnv_name_cases cfg name s hname with
        ⟨he, _⟩ | ⟨_, h1⟩ | ⟨he, _⟩
      · rw [hex] at he; simp at he
      · exact h1
      · rw [hex] at he; simp at he
    · intro hex
      rcases resetEnv_name_cases cfg name s hname with
        ⟨he, _⟩ | ⟨he, _⟩ | ⟨_, ⟨fs1, hr, h1⟩ | ⟨fs1, hr, h1⟩⟩
      · rw [hex] at he; simp at he
      · rw [hex] at he; simp at he
      · rw [h1, hr]; rfl
      · rw [h1, hr]; rfl
  · intro E hE hEd name hv
    obtain ⟨h1, h2⟩ := exists_check_entries hwf cfg hE hEd hv
    refine ⟨h1, h2, ?_⟩
    intro content hc
    constructor
    · rw [h1, mem_children_iff_isSome, hc]; rfl
    · intro hd
      rw [h2, hc] at hd
      simp at hd
  · intro s1 h1
    obtain ⟨new, hn, hp, hq⟩ := listEnvs_listing cfg s s1 hwf h1
    exact ⟨new, hn, fun name hm => ⟨(hp name hm).1, (hp name hm).2,
      isDirectory_exists (hp name hm).2⟩, hq⟩
  · intro hroot
    rcases listEnvs_cases cfg s hwf with ⟨hex, _⟩ | ⟨_, h⟩ | ⟨hex, hnd, _⟩ | ⟨_, _, _, _, h⟩
    · rcases hroot with hr | hr
      · rw [hex] at hr; simp at hr
      · have := isDirectory_exists hr
        rw [hex] at this; simp at this
    · exact ⟨_, h⟩
    · rcases hroot with hr | hr
      · rw [hex] at hr; simp at hr
      · rw [hnd] at hr; simp at hr
    · exact ⟨_, h⟩

theorem exists_check_and_listing_witness :
    WF demoState.fs ∧ validName "a" ∧ validName "f" ∧
      isDirectory demoState.fs (ENVS_PATH demoCfg ++ "/" ++ "a") = some true ∧
      fsExists demoState.fs (ENVS_PATH demoCfg ++ "/" ++ "f") = some true ∧
      isDirectory demoState.fs (ENVS_PATH demoCfg ++ "/" ++ "f") ≠ some true ∧
      (∃ s1, makeVenv demoCfg sysOk "f" demoState = Result.ok s1 ∧
        Event.err (RED ++ "Environment already exists: " ++ "f" ++ RESET ++ "\n")
          ∈ s1.trace) ∧
      ∃ s1, listEnvs demoCfg demoState = Result.ok s1 ∧
        ∃ new, s1.trace = demoState.trace ++ new ∧ Event.out (entryLine "a") ∈ new := by
  obtain ⟨hmk, _, _, hent, hlist, _⟩ := exists_check_and_listing demoCfg demoState (by decide)
  have hl : listEnvs demoCfg demoState = Result.ok
      { fs := demoFs,
        trace := [Event.out "  - a\n",
          Event.out "    Bash: source \"/h/.guv/envs/a/bin/activate\"\n"] } := by decide
  obtain ⟨new, h1, _, h3⟩ := hlist _ hl
  have hf := (hent ["h", ".guv", "envs"] (by decide) (by decide) "f" (by decide)).2.2 "x"
    (by decide)
  have hm := (hmk sysOk "f" (by decide) (by decide)).1 hf.1
  exact ⟨by decide, by decide, by decide, by decide, hf.1, hf.2,
    ⟨_, hm, by simp⟩, _, hl, new, h1, h3 "a" (by decide) (by decide)⟩

/-! ### Reset of all environments -/

theorem makeVenv_of_created (cfg : Cfg) (sys : Sys) (name : String) (s : State) (fs2 : FS)
    (hst : (sys (probeCmd cfg) s.fs).2 = 0)
    (hnew : fsExists (sys (probeCmd cfg) s.fs).1 (ENVS_PATH cfg ++ "/" ++ name) = some false)
    (hcd : createDirectories (sys (probeCmd cfg) s.fs).1 (ENVS_PATH cfg) = Result.ok fs2)
    (hok : (sys (venvCmd cfg name) fs2).2 = 0) :
    makeVenv cfg sys name s = Result.ok
      { fs := (sys (venvCmd cfg name) fs2).1,
        trace := s.trace ++ [Event.system (probeCmd cfg),
          Event.out (GREEN ++ "Creating venv at " ++ (ENVS_PATH cfg ++ "/" ++ name) ++ RESET
            ++ "\n"),
          Event.system (venvCmd cfg name)] } := by
  rw [makeVenv_of_absent cfg sys name s hst hnew, hcd]
  simp [hok]

theorem count_listedEvents (cfg : Cfg) (fs : FS) (name : String) (cs : List String)
    (hcs : ∀ c ∈ cs, validName c) :
    (listedEvents cfg fs (cs.map (fun c => ENVS_PATH cfg ++ "/" ++ c))).count
        (Event.out (entryLine name))
      = (cs.filter (fun c =>
          decide (isDirectory fs (ENVS_PATH cfg ++ "/" ++ c) = some true))).count name := by
  induction cs with
  | nil => simp [listedEvents]
  | cons c rest ih =>
    have hrest : ∀ c ∈ rest, validName c := fun x hx => hcs x (by simp [hx])
    have hvc : validName c := hcs c (by simp)
    have hact : ∀ x, (Event.out (activationLine cfg x) == Event.out (entryLine name)) = false := by
      intro x
      rw [beq_eq_false_iff_ne]
      intro h
      exact entryLine_ne_activationLine cfg name x (Event.out.inj h).symm
    simp only [List.map_cons, listedEvents]
    by_cases hd : isDirectory fs (ENVS_PATH cfg ++ "/" ++ c) = some true
    · rw [if_pos hd, List.filter_cons_of_pos (by simpa using hd), List.count_cons,
        List.count_cons, List.count_cons, ih hrest, hact, filename_child _ hvc]
      by_cases hcn : c = name
      · subst hcn; simp
      · have : (Event.out (entryLine c) == Event.out (entryLine name)) = false := by
          rw [beq_eq_false_iff_ne]
          intro h
          exact hcn (entryLine_inj (Event.out.inj h))
        simp [this, hcn]
    · rw [if_neg hd, List.filter_cons_of_neg (by simpa using hd), ih hrest]

/-- C6 (counterexample): `makeVenv "a/b"` succeeds, the tool has created the
directory `environment_root/a/b`, and `listEnvs` prints the entry `a` and no
entry named `a/b`. -/
theorem makeVenv_then_listed_counterexample :
    (sysVenv (probeCmd demoCfg) demoFsEmpty).2 = 0 ∧
      fsExists demoFsEmpty (ENVS_PATH demoCfg ++ "/" ++ "a/b") = some false ∧
      makeVenv demoCfg sysVenv "a/b" { fs := demoFsEmpty, trace := [] } = Result.ok
        { fs := demoFsEmpty ++ [(["h", ".guv", "envs", "a"], Node.dir),
            (["h", ".guv", "envs", "a", "b"], Node.dir)],
          trace := [Event.system (probeCmd demoCfg),
             Event.out (GREEN ++ "Creating venv at " ++ "/h/.guv/envs/a/b" ++ RESET ++ "\n"),
             Event.system (venvCmd demoCfg "a/b")] } ∧
      WF (makeVenv demoCfg sysVenv "a/b" { fs := demoFsEmpty, trace := [] }).state.fs ∧
      isDirectory (makeVenv demoCfg sysVenv "a/b" { fs := demoFsEmpty, trace := [] }).state.fs
        (ENVS_PATH demoCfg ++ "/" ++ "a/b") = some true ∧
      listEnvs demoCfg
          { fs := (makeVenv demoCfg sysVenv "a/b"
              { fs := demoFsEmpty, trace := [] }).state.fs, trace := [] }
        = Result.ok
          { fs := demoFsEmpty ++ [(["h", ".guv", "envs", "a"], Node.dir),
              (["h", ".guv", "envs", "a", "b"], Node.dir)],
            trace := [Event.out (entryLine "a"),
              Event.out "    Bash: source \"/h/.guv/envs/a/bin/activate\"\n"] } := by
  decide

/-- C6 (amended): when the probe finds the tool, the name does not exist,
the environment root can be created, and the `uv venv` process exits with 0
leaving a well-formed tree with a directory at `environment_root/name`, then
`makeVenv name` returns without a failure message and a following `listEnvs`
returns; it prints the entry line of `name` exactly once when `name` is an
ordinary one-component name, and never otherwise. -/
theorem makeVenv_then_listed (cfg : Cfg) (sys : Sys) (name : String) (s : State) (fs2 : FS)
    (hst : (sys (probeCmd cfg) s.fs).2 = 0)
    (hnew : fsExists (sys (probeCmd cfg) s.fs).1 (ENVS_PATH cfg ++ "/" ++ name) = some false)
    (hcd : createDirectories (sys (probeCmd cfg) s.fs).1 (ENVS_PATH cfg) = Result.ok fs2)
    (hok : (sys (venvCmd cfg name) fs2).2 = 0)
    (hwf : WF (sys (venvCmd cfg name) fs2).1)
    (hdir : isDirectory (sys (venvCmd cfg name) fs2).1 (ENVS_PATH cfg ++ "/" ++ name)
      = some true) :
    ∃ s1, makeVenv cfg sys name s = Result.ok s1 ∧
      s1.fs = (sys (venvCmd cfg name) fs2).1 ∧
      s1.trace = s.trace ++ [Event.system (probeCmd cfg),
        Event.out (GREEN ++ "Creating venv at " ++ (ENVS_PATH cfg ++ "/" ++ name) ++ RESET
          ++ "\n"),
        Event.system (venvCmd cfg name)] ∧
      ∃ s2 new, listEnvs cfg s1 = Result.ok s2 ∧ s2.trace = s1.trace ++ new ∧
        new.count (Event.out (entryLine name)) = if validName name then 1 else 0 := by
  refine ⟨_, makeVenv_of_created cfg sys name s fs2 hst hnew hcd hok, rfl, rfl, ?_⟩
  generalize (sys (venvCmd cfg name) fs2).1 = fs3 at hwf hdir
  obtain ⟨t, ht, htd⟩ := isDirectory_true_iff.mp hdir
  obtain ⟨E, hE, hEd⟩ := resolve_join_left (ENVS_PATH_ne_empty cfg) ht
  refine ⟨_, _, listEnvs_of_root_dir cfg _ hwf E hE hEd, List.append_assoc _ _ _, ?_⟩
  have hit := directoryIterator_of_dir hE hEd
  by_cases hv : validName name
  · rw [if_pos hv]
    have hmem : name ∈ children fs3 E := by
      rw [← (exists_check_entries hwf cfg hE hEd hv).1]
      exact isDirectory_exists hdir
    have hany : ((children fs3 E).map (fun c => ENVS_PATH cfg ++ "/" ++ c)).any
        (fun e => decide (isDirectory fs3 e = some true)) = true := by
      rw [List.any_eq_true]
      exact ⟨_, List.mem_map.mpr ⟨name, hmem, rfl⟩, by simpa using hdir⟩
    simp only [hany, if_true, List.append_nil]
    rw [count_listedEvents cfg fs3 name _ (fun c hc => (children_valid hwf hc).1)]
    apply List.count_eq_one_of_mem
    · exact (children_nodup hwf E).filter _
    · rw [List.mem_filter]
      exact ⟨hmem, by simpa using hdir⟩
  · rw [if_neg hv, List.count_eq_zero]
    intro hmem
    rw [List.mem_append] at hmem
    rcases hmem with hmem | hmem
    · exact hv (listed_is_directory hwf hit hmem).1
    · by_cases ha : ((children fs3 E).map (fun c => ENVS_PATH cfg ++ "/" ++ c)).any
          (fun e => decide (isDirectory fs3 e = some true)) = true
      · simp [ha] at hmem
      · simp only [ha, Bool.false_eq_true, if_false, List.mem_singleton] at hmem
        have := Event.out.inj hmem
        rw [none_found_message_red] at this
        exact absurd this (entryLine_ne_red _ _)

theorem makeVenv_then_listed_witness :
    validName "q" ∧ (sysVenv (probeCmd demoCfg) demoFs).2 = 0 ∧
      fsExists demoFs (ENVS_PATH demoCfg ++ "/" ++ "q") = some false ∧
      ∃ s1, makeVenv demoCfg sysVenv "q" demoState = Result.ok s1 ∧
        isDirectory s1.fs (ENVS_PATH demoCfg ++ "/" ++ "q") = some true ∧
        ∃ s2 new, listEnvs demoCfg s1 = Result.ok s2 ∧ s2.trace = s1.trace ++ new ∧
          new.count (Event.out (entryLine "q")) = 1 := by
  have hcd : createDirectories (sysVenv (probeCmd demoCfg) demoState.fs).1 (ENVS_PATH demoCfg)
      = Result.ok demoFs := by decide
  obtain ⟨s1, h1, h2, _, s2, new, h3, h4, h5⟩ :=
    makeVenv_then_listed demoCfg sysVenv "q" demoState demoFs
      (by decide) (by decide) hcd (by decide) (by decide) (by decide)
  rw [if_pos (by decide)] at h5
  refine ⟨by decide, by decide, by decide, s1, h1, ?_, s2, new, h3, h4, h5⟩
  rw [h2]
  decide

end Guv
